import Mathlib

/-! soss: the xtypes example system handle and the middleware interface
extension.

A shallow embedding of

* `packages/xtypes-example/src/SystemHandle.cpp` (classes `Subscriber`,
  `Publisher` and `SystemHandle`), and
* `packages/core/include/is/core/runtime/MiddlewareInterfaceExtension.hpp`
  (class `MiddlewareInterfaceExtension`, whose member functions are only
  declared there).

C++ containers are embedded as lists, exceptions as `Except`, objects as
structures whose methods take the object and return its new value.
-/

/-! ## The standard library pieces the sources use -/

namespace std

/-- The exceptions that can leave the functions of the sources: those thrown
by the standard library calls they make, and whatever a callable of the host
throws, named by a number. -/
inductive Exception where
  | out_of_range
  | invalid_argument
  | bad_function_call
  | thrown (code : Nat)
  deriving DecidableEq, Repr

/-- Lexicographic comparison of character sequences, by character code. -/
def lex_less : List Char → List Char → Bool
  | [], [] => false
  | [], _ :: _ => true
  | _ :: _, [] => false
  | a :: as, b :: bs =>
    if a.toNat < b.toNat then true
    else if b.toNat < a.toNat then false
    else lex_less as bs

/-- The ordering `std::less<std::string>` of the keys of a `std::map`. -/
def less (a b : String) : Bool := lex_less a.data b.data

/-- A `std::map<std::string, V>`: the sequence of its pairs in iteration
order (ascending keys). -/
abbrev map (V : Type) := List (String × V)

namespace map

variable {V : Type}

/-- `std::map::find`: the value stored under `k`, if any. -/
def find : map V → String → Option V
  | [], _ => none
  | (k', v) :: rest, k => if k' = k then some v else find rest k

/-- `std::map::at`: the value stored under `k`; throws `std::out_of_range`
when the key is absent. -/
def at_ (m : map V) (k : String) : Except Exception V :=
  match find m k with
  | some v => .ok v
  | none => .error .out_of_range

/-- Insertion of a new pair at its place in the key order. -/
def insert_sorted (k : String) (v : V) : map V → map V
  | [] => [(k, v)]
  | (k', v') :: rest =>
    if less k k' then (k, v) :: (k', v') :: rest
    else (k', v') :: insert_sorted k v rest

/-- `std::map::emplace`: inserts the pair unless the key is already present,
in which case the map is left as it is. -/
def emplace (m : map V) (k : String) (v : V) : map V :=
  match find m k with
  | some _ => m
  | none => insert_sorted k v m

/-- Overwrites the value stored under a key that is present. -/
def replace (k : String) (v : V) : map V → map V
  | [] => []
  | (k', v') :: rest =>
    if k' = k then (k', v) :: rest else (k', v') :: replace k v rest

/-- The statement `m[k] = v`: `operator[]` inserts the key when it is absent,
then the referenced value is assigned. -/
def assign (m : map V) (k : String) (v : V) : map V :=
  match find m k with
  | some _ => replace k v m
  | none => insert_sorted k v m

/-- Construction from an initializer list: the pairs are inserted one by one,
a repeated key keeps its first value. -/
def of_list (l : List (String × V)) : map V :=
  l.foldl (fun m p => emplace m p.1 p.2) []

end map

/-- The value of `INT_MIN` for a 32-bit `int`. -/
def INT_MIN : Int := -2147483648

/-- The value of `INT_MAX` for a 32-bit `int`. -/
def INT_MAX : Int := 2147483647

/-- `std::to_string(int)`: the decimal digits, preceded by `-` for a negative
value. -/
def to_string (value : Int) : String :=
  if value < 0 then String.mk ('-' :: Nat.toDigits 10 value.natAbs)
  else String.mk (Nat.toDigits 10 value.natAbs)

/-- `isspace` in the "C" locale. -/
def isspace (c : Char) : Bool :=
  c = ' ' || c = '\t' || c = '\n' || c.toNat = 11 || c.toNat = 12 || c = '\r'

/-- The value of a run of decimal digits. -/
def digits_value (ds : List Char) : Nat :=
  ds.foldl (fun acc c => 10 * acc + (c.toNat - 48)) 0

/-- The optional sign in front of a number: whether it is a minus sign, and
the characters after it. -/
def read_sign : List Char → Bool × List Char
  | '-' :: rest => (true, rest)
  | '+' :: rest => (false, rest)
  | cs => (false, cs)

/-- `std::stoi(str)` (base 10): skips leading white space, reads an optional
sign and the longest run of decimal digits; throws `std::invalid_argument`
when there is no digit and `std::out_of_range` when the value does not fit an
`int`. -/
def stoi (str : String) : Except Exception Int :=
  let signed := read_sign (str.data.dropWhile isspace)
  let ds := signed.2.takeWhile Char.isDigit
  if ds = [] then .error .invalid_argument
  else
    let magnitude : Int := (digits_value ds : Nat)
    let value : Int := if signed.1 then -magnitude else magnitude
    if value < INT_MIN ∨ INT_MAX < value then .error .out_of_range
    else .ok value

end std

/-! ## YAML nodes -/

namespace YAML

/-- A `YAML::Node`: an already parsed tree of null, scalar, sequence and
mapping nodes. -/
inductive Node where
  | Null
  | Scalar (text : String)
  | Sequence (items : List Node)
  | Map (pairs : List (String × Node))
  deriving Repr

end YAML

/-! ## The dynamic types the example exchanges -/

namespace xtypes

/-- Modelled from the spec: the declaration of `xtypes::DynamicType::Type` is
not part of the sources, which only name its enumerator `INT`; the remaining
enumerators are kept abstract. -/
inductive Kind where
  | NONE
  | INT
  | OTHER (code : Nat)
  deriving DecidableEq, Repr

/-- Modelled from the spec: the declaration of `xtypes::DynamicType` is not
part of the sources. It is the value the sources use it as: a name
(`get_name`) and a map from member names to their kinds (`get_members`,
`operator[]`). -/
structure DynamicType where
  name_ : String
  members_ : std.map Kind
  deriving DecidableEq, Repr

namespace DynamicType

/-- The constructor `DynamicType(name)`: a type without members. -/
def mk_named (name : String) : DynamicType := ⟨name, []⟩

def get_name (self : DynamicType) : String := self.name_

def get_members (self : DynamicType) : std.map Kind := self.members_

/-- The statement `type[field] = kind`. -/
def set (self : DynamicType) (field : String) (kind : Kind) : DynamicType :=
  { self with members_ := self.members_.assign field kind }

end DynamicType

/-- Modelled from the spec: the declaration of `xtypes::DynamicData` is not
part of the sources. It is the value the sources use it as: an instance of a
type whose member values are strings, written with `operator[]`, read with
the const `operator[]` and listed by `get_values`. -/
structure DynamicData where
  type_ : DynamicType
  values_ : std.map String
  deriving DecidableEq, Repr

namespace DynamicData

/-- The constructor `DynamicData(type)`: no value is set. -/
def mk_of (type : DynamicType) : DynamicData := ⟨type, []⟩

/-- The statement `data[field] = value`. -/
def set (self : DynamicData) (field value : String) : DynamicData :=
  { self with values_ := self.values_.assign field value }

/-- The const `operator[]`: the value of a member that has been set. -/
def get (self : DynamicData) (field : String) : Except std.Exception String :=
  self.values_.at_ field

def get_values (self : DynamicData) : std.map String := self.values_

end DynamicData

end xtypes

/-- A `std::shared_ptr<xtypes::DynamicType>` (and the raw pointer obtained
from it): the address of the object together with the object it points to.
The objects are not modified once they are shared. -/
structure TypePtr where
  addr : Nat
  pointee : xtypes.DynamicType
  deriving DecidableEq, Repr

/-- Modelled from the spec: the declaration of `SubscriptionCallback` is not
part of the sources. It is the `std::function` the host passes to
`subscribe`, which `receive` calls with the converted data (§6): it is empty
or holds a callable of the host, named by a number. -/
inductive SubscriptionCallback where
  | empty
  | target (callable : Nat)
  deriving DecidableEq, Repr

/-- One evaluation of the call `soss_callback_(&message)`: the callback that
is called and the message it is given. -/
structure Invocation where
  callback : SubscriptionCallback
  message : xtypes.DynamicData
  deriving DecidableEq, Repr

/-- The callables of the host: what the call of a callable with a message
does after the calls made before it, which is to return (`none`) or to throw
an exception. What a callable does to the host, and a callable that calls the
handle again, are not modelled. -/
abbrev Host := List Invocation → Nat → xtypes.DynamicData → Option std.Exception

/-- The exception that leaves the call `soss_callback_(&message)`, if any: a
`std::function` that is empty throws `std::bad_function_call`, one that holds
a callable lets through what the callable throws. -/
def SubscriptionCallback.throws (host : Host) (history : List Invocation) :
    SubscriptionCallback → xtypes.DynamicData → Option std.Exception
  | .empty, _ => some .bad_function_call
  | .target callable, message => host history callable message

/-- What a call of `Subscriber::receive` leaves behind: the calls of the
callback it has made, and whether it has returned or an exception has left
it. -/
structure Received where
  calls : List Invocation
  result : Except std.Exception Unit

/-! ## class Subscriber -/

structure Subscriber where
  topic_name_ : String
  type_ : TypePtr
  soss_callback_ : SubscriptionCallback
  deriving DecidableEq, Repr

namespace Subscriber

def get_topic_name (self : Subscriber) : String := self.topic_name_

def get_type (self : Subscriber) : TypePtr := self.type_

/-- The conversion loop of `receive`: every member of the type is set to the
text of its integer in the system message. -/
def convert (system_message : std.map Int) :
    List (String × xtypes.Kind) → xtypes.DynamicData →
      Except std.Exception xtypes.DynamicData
  | [], message => .ok message
  | member :: rest, message =>
    match system_message.at_ member.1 with
    | .error e => .error e
    | .ok value => convert system_message rest (message.set member.1 (std.to_string value))

/-- `Subscriber::receive`: builds the dynamic message and calls the callback
with it; `history` are the calls made before. An exception of the conversion
or of the callback leaves the function. -/
def receive (self : Subscriber) (host : Host) (history : List Invocation)
    (system_message : std.map Int) : Received :=
  match convert system_message self.type_.pointee.get_members
      (xtypes.DynamicData.mk_of self.type_.pointee) with
  | .error e => ⟨[], .error e⟩
  | .ok message =>
    match self.soss_callback_.throws host history message with
    | some e => ⟨[⟨self.soss_callback_, message⟩], .error e⟩
    | none => ⟨[⟨self.soss_callback_, message⟩], .ok ()⟩

end Subscriber

/-! ## class Publisher -/

structure Publisher where
  topic_name_ : String
  type_ : TypePtr
  deriving DecidableEq, Repr

/-- What a call of `Publisher::publish` leaves behind: the value it returns,
the system message its conversion loop has built and the text it has
printed. -/
structure Published where
  result : Bool
  system_message : std.map Int
  printed : String
  deriving DecidableEq, Repr

namespace Publisher

def get_topic_name (self : Publisher) : String := self.topic_name_

def get_type (self : Publisher) : TypePtr := self.type_

/-- The conversion loop of `publish`: every member of the type is read from
the message and converted with `std::stoi`. -/
def convert (message : xtypes.DynamicData) :
    List (String × xtypes.Kind) → std.map Int → Except std.Exception (std.map Int)
  | [], system_message => .ok system_message
  | member :: rest, system_message =>
    match message.get member.1 with
    | .error e => .error e
    | .ok text =>
      match std.stoi text with
      | .error e => .error e
      | .ok value => convert message rest (system_message.assign member.1 value)

/-- The printing loop of `publish`. -/
def print (values : std.map String) : String :=
  values.foldl (fun out member => out ++ member.1 ++ ": " ++ member.2 ++ ", ") "" ++ "\n"

/-- `Publisher::publish`. -/
def publish (self : Publisher) (message : xtypes.DynamicData) :
    Except std.Exception Published :=
  match convert message self.type_.pointee.get_members [] with
  | .error e => .error e
  | .ok system_message => .ok ⟨true, system_message, print message.get_values⟩

end Publisher

/-! ## class SystemHandle -/

namespace soss

/-- Modelled from the spec: the declaration of `soss::RequiredTypes` is not
part of the sources. It is the argument of `configure` that lists the types
the host needs, which the example does not read. -/
structure RequiredTypes where
  messages : List String
  services : List String
  deriving Repr

end soss

/-- The members of the class; a default constructed handle has all three
empty. -/
structure SystemHandle where
  types_ : std.map TypePtr := []
  publishers_ : List Publisher := []
  subscribers_ : List Subscriber := []
  deriving DecidableEq, Repr

/-- What a member function leaves behind: the value it returns, or the
exception that leaves it, and the members of the handle at that point. -/
structure Outcome (α : Type) where
  result : Except std.Exception α
  handle : SystemHandle

namespace SystemHandle

/-- The object `coord_2d` that `configure` builds. -/
def coord_2d : xtypes.DynamicType :=
  ((xtypes.DynamicType.mk_named "Coordinate2D").set "x" .INT).set "y" .INT

/-- The object `coord_3d` that `configure` builds. -/
def coord_3d : xtypes.DynamicType :=
  (((xtypes.DynamicType.mk_named "Coordinate3D").set "x" .INT).set "y" .INT).set "z" .INT

/-- `SystemHandle::configure`. The two `std::make_shared` calls return the
addresses `addr_2d` and `addr_3d`; `xtypes` is the output vector, returned
with what has been pushed onto it. -/
def configure (self : SystemHandle) (addr_2d addr_3d : Nat)
    (_types : soss.RequiredTypes) (_configuration : YAML.Node)
    (xtypes : List TypePtr) : Bool × SystemHandle × List TypePtr :=
  let coord_2d : TypePtr := ⟨addr_2d, SystemHandle.coord_2d⟩
  let coord_3d : TypePtr := ⟨addr_3d, SystemHandle.coord_3d⟩
  let types₁ := self.types_.emplace coord_2d.pointee.get_name coord_2d
  let types₂ := types₁.emplace coord_3d.pointee.get_name coord_3d
  let xtypes := types₂.foldl (fun out it => out ++ [it.2]) xtypes
  (true, { self with types_ := types₂ }, xtypes)

/-- `SystemHandle::okay`. -/
def okay (_self : SystemHandle) : Bool := true

/-- The loop of `spin_once` over the subscribers: the calls of the callbacks
made so far, and whether the loop has come to its end or an exception has
left it. -/
def spin_loop (host : Host) :
    List Subscriber → List Invocation → List Invocation × Except std.Exception Unit
  | [], calls => (calls, .ok ())
  | subscriber :: rest, calls =>
    if subscriber.get_type.pointee.get_name = "Coordinate2D" then
      match subscriber.receive host calls (std.map.of_list [("x", 3), ("y", 6)]) with
      | ⟨made, .error e⟩ => (calls ++ made, .error e)
      | ⟨made, .ok _⟩ => spin_loop host rest (calls ++ made)
    else if subscriber.get_type.pointee.get_name = "Coordinate3D" then
      match subscriber.receive host calls
          (std.map.of_list [("x", 3), ("y", 6), ("z", 9)]) with
      | ⟨made, .error e⟩ => (calls ++ made, .error e)
      | ⟨made, .ok _⟩ => spin_loop host rest (calls ++ made)
    else spin_loop host rest calls

/-- What a call of `SystemHandle::spin_once` leaves behind: the value it
returns, or the exception that leaves it, the calls of the callbacks it has
made and the members of the handle. -/
structure Spun where
  result : Except std.Exception Bool
  calls : List Invocation
  handle : SystemHandle

/-- `SystemHandle::spin_once`. The one second sleep is not modelled. -/
def spin_once (self : SystemHandle) (host : Host) : Spun :=
  match spin_loop host self.subscribers_ [] with
  | (calls, .error e) => ⟨.error e, calls, self⟩
  | (calls, .ok _) => ⟨.ok self.okay, calls, self⟩

/-- `SystemHandle::subscribe`. -/
def subscribe (self : SystemHandle) (topic_name message_type : String)
    (callback : SubscriptionCallback) (_configuration : YAML.Node) : Outcome Bool :=
  match self.types_.at_ message_type with
  | .error e => ⟨.error e, self⟩
  | .ok type =>
    let subscriber : Subscriber := ⟨topic_name, type, callback⟩
    ⟨.ok true, { self with subscribers_ := self.subscribers_ ++ [subscriber] }⟩

/-- `SystemHandle::advertise`; `publishers_.back()` is the last element of the
vector. -/
def advertise (self : SystemHandle) (topic_name message_type : String)
    (_configuration : YAML.Node) : Outcome (Option Publisher) :=
  match self.types_.at_ message_type with
  | .error e => ⟨.error e, self⟩
  | .ok type =>
    let publisher : Publisher := ⟨topic_name, type⟩
    let publishers := self.publishers_ ++ [publisher]
    ⟨.ok publishers.getLast?, { self with publishers_ := publishers }⟩

/-- A call of one of the five member functions, with its arguments. -/
inductive Call where
  | configure (addr_2d addr_3d : Nat) (types : soss.RequiredTypes)
      (configuration : YAML.Node) (xtypes : List TypePtr)
  | okay
  | spin_once (host : Host)
  | subscribe (topic_name message_type : String) (callback : SubscriptionCallback)
      (configuration : YAML.Node)
  | advertise (topic_name message_type : String) (configuration : YAML.Node)

/-- The members of the handle after a call. -/
def step (self : SystemHandle) : Call → SystemHandle
  | .configure a b types configuration xtypes =>
    (self.configure a b types configuration xtypes).2.1
  | .okay => self
  | .spin_once host => (self.spin_once host).handle
  | .subscribe topic_name message_type callback configuration =>
    (self.subscribe topic_name message_type callback configuration).handle
  | .advertise topic_name message_type configuration =>
    (self.advertise topic_name message_type configuration).handle

/-- The members of a freshly constructed handle after a sequence of calls. -/
def run (calls : List Call) : SystemHandle := calls.foldl step {}

/-- The states a handle can be in. -/
def Reachable (s : SystemHandle) : Prop := ∃ calls, run calls = s

/-- Whether a call is a call of `configure`. -/
def Call.is_configure : Call → Bool
  | .configure .. => true
  | _ => false

end SystemHandle

/-! ## class MiddlewareInterfaceExtension

The header declares the class and documents its member functions; their
bodies (the class `Implementation`) are not part of the sources. -/

namespace PathResolver

/-- Modelled from the spec: the path handling behind the constructor of
`MiddlewareInterfaceExtension` is missing. The loop that cuts a path into its
segments at the separator `/`; `current` is the segment being read, last
character first. Empty segments are dropped, so that repeated, leading and
trailing separators do not matter. -/
def split_loop : List Char → List Char → List (List Char)
  | [], current => if current = [] then [] else [current.reverse]
  | c :: rest, current =>
    if c = '/' then
      if current = [] then split_loop rest []
      else current.reverse :: split_loop rest []
    else split_loop rest (c :: current)

/-- Modelled from the spec: missing with `Implementation`. The segments of a
path. -/
def segments (path : List Char) : List (List Char) := split_loop path []

/-- Modelled from the spec: missing with `Implementation`. Whether a path
starts at the root. -/
def is_absolute (path : String) : Bool :=
  match path.data with
  | c :: _ => c = '/'
  | [] => false

/-- Modelled from the spec: missing with `Implementation`. One step of the
normalisation of a path, as a filesystem normalisation does it: `stack` holds
the segments kept so far, last one first. A `.` segment is dropped; a `..`
segment removes the segment before it, stays at the root of an absolute path
and is kept at the start of a relative one. -/
def step (absolute : Bool) (stack : List (List Char)) (segment : List Char) :
    List (List Char) :=
  if segment = ['.'] then stack
  else if segment = ['.', '.'] then
    match stack with
    | [] => if absolute then [] else [segment]
    | top :: below => if top = ['.', '.'] then segment :: stack else below
  else segment :: stack

/-- Modelled from the spec: missing with `Implementation`. The segments of a
path written one after the other, with a separator between two of them. -/
def join_segments : List (List Char) → List Char
  | [] => []
  | [segment] => segment
  | segment :: rest => segment ++ '/' :: join_segments rest

/-- Modelled from the spec: missing with `Implementation`. The text of a
path given by its segments. -/
def render (absolute : Bool) (segs : List (List Char)) : List Char :=
  if absolute then '/' :: join_segments segs
  else if segs = [] then ['.']
  else join_segments segs

/-- Modelled from the spec: missing with `Implementation`. The purely lexical
join of the owning directory and a relative reference into a single path
(§4.2 "joins the two into a single path"). -/
def join (owning_directory relative_reference : String) : String :=
  owning_directory ++ "/" ++ relative_reference

/-- Modelled from the spec: missing with `Implementation`. The normalisation
of the parent-directory segments of a path (§4.2 "normalizes any
parent-directory (`..`) segments, exactly as a filesystem
path-join-and-normalize would"); the file system is not consulted. -/
def normalize (path : String) : String :=
  String.mk (render (is_absolute path)
    ((segments path.data).foldl (step (is_absolute path)) []).reverse)

/-- Modelled from the spec: missing with `Implementation`. The operation
`resolve(owning_directory, relative_reference) -> absolute_path` of §4.2: it
"joins the two into a single path and normalizes any parent-directory (`..`)
segments". -/
def resolve (owning_directory relative_reference : String) : String :=
  normalize (join owning_directory relative_reference)

/-- Modelled from the spec: missing with `Implementation`. The segments
reached by navigating from the owning directory along the relative reference,
last one first (constructor documentation: the directory path is "used as a
starting point to navigate to the relative paths defined by the *mix*
file"). -/
def navigate (owning_directory relative_reference : String) : List (List Char) :=
  (segments relative_reference.data).foldl (step (is_absolute owning_directory))
    ((segments owning_directory.data).foldl (step (is_absolute owning_directory)) [])

end PathResolver

namespace LibraryLoader

/-- Modelled from the spec: the errors of `load_one` (§4.3, §7). -/
inductive LoadError where
  | LibraryNotFound
  | LibraryLoadFailed (diagnostic : String)
  deriving DecidableEq, Repr

/-- Modelled from the spec: the opaque handle of a loaded module (§3). -/
abbrev NativeHandle := Nat

/-- Modelled from the spec: the dynamic-loading facility of the host
platform, `load_one(absolute_path) -> Result<NativeHandle, LoadError>` of
§4.3, which the model takes as given. -/
abbrev Platform := String → Except LoadError NativeHandle

end LibraryLoader

namespace MiddlewareInterfaceExtension

open LibraryLoader

/-- Modelled from the spec: the errors of the three factory operations
(§7). -/
inductive ManifestError where
  | ManifestNotFound
  | ManifestParseError
  | ManifestSchemaError
  deriving DecidableEq, Repr

/-- Modelled from the spec: `platform_key` of a `LibraryEntry` (§3); the
first is written `dl` in a manifest, the second `dll` (§6). -/
inductive PlatformKey where
  | posix_shared_object
  | windows_dynamic_library
  deriving DecidableEq, Repr

/-- Modelled from the spec: `status` of a `LibraryEntry` (§3). -/
inductive Status where
  | unresolved
  | resolved
  | load_succeeded
  | load_failed
  deriving DecidableEq, Repr

/-- Modelled from the spec: `LibraryEntry` of §3, which the missing
`Implementation` holds. -/
structure LibraryEntry where
  platform_key : PlatformKey
  relative_reference : String
  resolved_path : Option String := none
  status : Status := .unresolved
  native_handle : Option NativeHandle := none
  deriving DecidableEq, Repr

/-- Modelled from the spec: `loaded` of §3. -/
inductive Loaded where
  | not_attempted
  | fully_succeeded
  | partially_or_fully_failed
  deriving DecidableEq, Repr

/-- Modelled from the spec: the members of the missing class
`Implementation`, `ExtensionManifest` of §3. -/
structure Implementation where
  owning_directory : String
  entries : List LibraryEntry
  loaded : Loaded := .not_attempted
  deriving DecidableEq, Repr

/-- Modelled from the spec: missing with `Implementation`. The value stored
under a key of a mapping node. -/
def lookup (key : String) : List (String × YAML.Node) → Option YAML.Node
  | [] => none
  | (k, v) :: rest => if k = key then some v else lookup key rest

/-- Modelled from the spec: the body of `from_node` is missing. The entry of
one declaration (§4.1): "a mapping with exactly one of the two platform keys
present, each with a string value"; a schema error "if a declaration has
neither or both platform keys, or a non-string value". -/
def declaration : YAML.Node → Except ManifestError LibraryEntry
  | .Map pairs =>
    match lookup "dl" pairs, lookup "dll" pairs with
    | some (.Scalar reference), none =>
      .ok { platform_key := .posix_shared_object, relative_reference := reference }
    | none, some (.Scalar reference) =>
      .ok { platform_key := .windows_dynamic_library, relative_reference := reference }
    | _, _ => .error .ManifestSchemaError
  | _ => .error .ManifestSchemaError

/-- Modelled from the spec: the body of `from_node` is missing. The walk
over the declarations, which stops at the first one that is rejected. -/
def declarations : List YAML.Node → Except ManifestError (List LibraryEntry)
  | [] => .ok []
  | decl :: rest =>
    match declaration decl with
    | .error e => .error e
    | .ok entry =>
      match declarations rest with
      | .error e => .error e
      | .ok entries => .ok (entry :: entries)

/-- Modelled from the spec: the body of `from_node` is missing. The canonical
constructor of §4.1: it walks the top-level sequence of declarations and
produces one entry per declaration, in order. A tree that is not a sequence
has not the expected shape (`ManifestParseError`, §4.1). -/
def from_node (node : YAML.Node) (absolute_file_directory_path : String) :
    Except ManifestError Implementation :=
  match node with
  | .Sequence decls =>
    match declarations decls with
    | .error e => .error e
    | .ok entries => .ok { owning_directory := absolute_file_directory_path, entries := entries }
  | _ => .error .ManifestParseError

/-- Modelled from the spec: the body of `from_string` is missing. The text is
parsed into a tree by `yaml_load`, which is taken as given, and handed to
`from_node` (§4.1). -/
def from_string (yaml_load : String → Option YAML.Node) (mix_text : String)
    (absolute_file_directory_path : String) : Except ManifestError Implementation :=
  match yaml_load mix_text with
  | none => .error .ManifestParseError
  | some node => from_node node absolute_file_directory_path

/-- Modelled from the spec: the body of `from_file` is missing. The directory
part of a file name: everything up to its last separator. -/
def directory_of (filename : String) : String :=
  match (filename.data.reverse.dropWhile (fun c => c ≠ '/')).reverse with
  | [] => "."
  | directory => String.mk directory

/-- Modelled from the spec: the body of `from_file` is missing. The file is
read through `read_file`, which is taken as given, and its content is handed
to `from_string` with the directory of the file (§4.1). -/
def from_file (read_file : String → Option String) (yaml_load : String → Option YAML.Node)
    (filename : String) : Except ManifestError Implementation :=
  match read_file filename with
  | none => .error .ManifestNotFound
  | some mix_text => from_string yaml_load mix_text (directory_of filename)

/-- Modelled from the spec: the body of `load` is missing. The path of an
entry: resolved against the owning directory, once (§4.4 "result cached on
the entry"). -/
def path_of (owning_directory : String) (entry : LibraryEntry) : String :=
  match entry.resolved_path with
  | some path => path
  | none => PathResolver.resolve owning_directory entry.relative_reference

/-- Modelled from the spec: the body of `load` is missing. The load attempt
for one entry (§4.4): the entry afterwards, and whether it has loaded. -/
def load_entry (load_one : Platform) (owning_directory : String) (entry : LibraryEntry) :
    LibraryEntry × Bool :=
  let path := path_of owning_directory entry
  match load_one path with
  | .ok handle =>
    ({ entry with resolved_path := some path, status := .load_succeeded,
                  native_handle := some handle }, true)
  | .error _ =>
    ({ entry with resolved_path := some path, status := .load_failed }, false)

/-- Modelled from the spec: the body of `load` is missing. The iteration over
the entries in declaration order (§4.4), which goes on after a failure;
`done` are the entries already attempted and `result` the aggregate so
far. -/
def load_loop (load_one : Platform) (owning_directory : String) :
    List LibraryEntry → List LibraryEntry → Bool → List LibraryEntry × Bool
  | [], done, result => (done, result)
  | entry :: rest, done, result =>
    let attempt := load_entry load_one owning_directory entry
    load_loop load_one owning_directory rest (done ++ [attempt.1]) (result && attempt.2)

/-- Modelled from the spec: the body of `load` is missing. The aggregate
operation of §4.4: the value it returns and the manifest afterwards. -/
def load (load_one : Platform) (self : Implementation) : Bool × Implementation :=
  let looped := load_loop load_one self.owning_directory self.entries [] true
  (looped.2,
   { self with
     entries := looped.1
     loaded := if looped.2 then .fully_succeeded else .partially_or_fully_failed })

end MiddlewareInterfaceExtension

namespace SystemHandle

/-- The shape of the members that every reachable state has: the type table
is empty or holds the two types made by `configure`, and every subscriber and
publisher holds a pointer stored in the type table under the name of its
type. -/
def Wellformed (s : SystemHandle) : Prop :=
  (s.types_ = [] ∨
    ∃ a b, s.types_ = [("Coordinate2D", ⟨a, coord_2d⟩), ("Coordinate3D", ⟨b, coord_3d⟩)]) ∧
  (∀ sub ∈ s.subscribers_, (sub.type_.pointee.get_name, sub.type_) ∈ s.types_) ∧
  (∀ pub ∈ s.publishers_, (pub.type_.pointee.get_name, pub.type_) ∈ s.types_)

/-- The call that the claims describe for a subscriber: its callback, with
the message of its type that holds x="3", y="6" for `Coordinate2D` and x="3",
y="6", z="9" otherwise. -/
def fixed_values_call (sub : Subscriber) : Invocation :=
  ⟨sub.soss_callback_,
   ⟨sub.type_.pointee,
    if sub.type_.pointee.get_name = "Coordinate2D"
    then [("x", "3"), ("y", "6")]
    else [("x", "3"), ("y", "6"), ("z", "9")]⟩⟩

/-- The calls of a list, made in order until one of them throws: the calls
made, `done` included, and whether all have returned. -/
def deliver (host : Host) :
    List Invocation → List Invocation → List Invocation × Except std.Exception Unit
  | done, [] => (done, .ok ())
  | done, call :: rest =>
    match call.callback.throws host done call.message with
    | some e => (done ++ [call], .error e)
    | none => deliver host (done ++ [call]) rest

/-- A host none of whose callables throws. -/
def quiet : Host := fun _ _ _ => none

/-- A configured handle with a subscriber of each type and a publisher. -/
def busy : SystemHandle :=
  run [.configure 1 2 ⟨[], []⟩ .Null [],
       .subscribe "a" "Coordinate2D" (.target 7) .Null,
       .subscribe "b" "Coordinate3D" (.target 8) .Null,
       .advertise "c" "Coordinate3D" .Null]

/-- A configured handle whose first subscriber has an empty callback. -/
def silent_first : SystemHandle :=
  run [.configure 1 2 ⟨[], []⟩ .Null [],
       .subscribe "a" "Coordinate2D" .empty .Null,
       .subscribe "b" "Coordinate3D" (.target 8) .Null]

end SystemHandle

namespace MiddlewareInterfaceExtension

/-- Whether a declaration is a mapping that has the given key. -/
def has_key (key : String) : YAML.Node → Bool
  | .Map pairs => (lookup key pairs).isSome
  | _ => false

/-- The string stored under a key of a declaration, when the declaration is a
mapping that has the key with a string value. -/
def string_value (key : String) : YAML.Node → Option String
  | .Map pairs =>
    match lookup key pairs with
    | some (.Scalar text) => some text
    | _ => none
  | _ => none

/-- A declaration that the schema of §4.1 rejects: it has neither platform
key, or both, or a value that is not a string under the key it has. -/
def rejected (decl : YAML.Node) : Prop :=
  (has_key "dl" decl = false ∧ has_key "dll" decl = false) ∨
  (has_key "dl" decl = true ∧ has_key "dll" decl = true) ∨
  (has_key "dl" decl = true ∧ string_value "dl" decl = none) ∨
  (has_key "dll" decl = true ∧ string_value "dll" decl = none)

/-- The entry that stands for a declaration: its key and its reference are
those of the one platform key the declaration has, and nothing has been
resolved or loaded yet. -/
def stands_for (decl : YAML.Node) (entry : LibraryEntry) : Prop :=
  entry.resolved_path = none ∧ entry.status = .unresolved ∧ entry.native_handle = none ∧
  ((entry.platform_key = .posix_shared_object ∧ has_key "dll" decl = false ∧
      string_value "dl" decl = some entry.relative_reference) ∨
   (entry.platform_key = .windows_dynamic_library ∧ has_key "dl" decl = false ∧
      string_value "dll" decl = some entry.relative_reference))

/-- A platform on which every library loads but `/opt/lib/libmissing.so`. -/
def one_missing : LibraryLoader.Platform :=
  fun path => if path = "/opt/lib/libmissing.so" then .error .LibraryNotFound else .ok 1

/-- A manifest with one missing library between two valid ones. -/
def three_entries : Implementation :=
  { owning_directory := "/opt/bridge/lib"
    entries :=
      [{ platform_key := .posix_shared_object, relative_reference := "../../lib/libfirst.so" },
       { platform_key := .posix_shared_object, relative_reference := "../../lib/libmissing.so" },
       { platform_key := .posix_shared_object, relative_reference := "../../lib/libthird.so" }] }

end MiddlewareInterfaceExtension

/-! # Properties -/

/-! ## Lemmas on `std::map` -/

namespace std.map

variable {V : Type}

theorem find_insert_sorted (k : String) (v : V) (j : String) :
    ∀ m : map V, find m k = none →
      find (insert_sorted k v m) j = if k = j then some v else find m j := by
  intro m
  induction m with
  | nil => intro _; simp [insert_sorted, find]
  | cons head rest ih =>
    obtain ⟨k', v'⟩ := head
    intro h
    have hk : ¬ k' = k := by
      intro hEq
      simp [find, hEq] at h
    have hrest : find rest k = none := by
      simpa [find, hk] using h
    by_cases hl : less k k' = true
    · simp [insert_sorted, hl, find]
    · simp only [insert_sorted, hl, find, ih hrest]
      by_cases h1 : k' = j
      · have h2 : ¬ k = j := fun h2 => hk (h1.trans h2.symm)
        simp [h1, h2]
      · simp [h1]

theorem find_replace (k : String) (v : V) (j : String) :
    ∀ m : map V,
      find (replace k v m) j = if k = j then (find m k).map (fun _ => v) else find m j := by
  intro m
  induction m with
  | nil => simp [replace, find]
  | cons head rest ih =>
    obtain ⟨k', v'⟩ := head
    by_cases h1 : k' = k
    · subst h1
      by_cases h2 : k' = j
      · simp [replace, find, h2]
      · simp [replace, find, h2]
    · simp only [replace, h1, find, ih, if_false]
      by_cases h2 : k' = j
      · have h3 : ¬ k = j := fun h3 => h1 (h2.trans h3.symm)
        simp [h2, h3]
      · simp [h2]

theorem find_assign (m : map V) (k : String) (v : V) (j : String) :
    find (assign m k v) j = if k = j then some v else find m j := by
  unfold assign
  cases h : find m k with
  | none => simpa using find_insert_sorted k v j m h
  | some w => simp [find_replace, h]

theorem find_emplace (m : map V) (k : String) (v : V) (j : String) :
    find (emplace m k v) j = if k = j then some ((find m k).getD v) else find m j := by
  unfold emplace
  cases h : find m k with
  | none => simpa using find_insert_sorted k v j m h
  | some w =>
    by_cases hj : k = j
    · subst hj; simp [h]
    · simp [hj]

theorem emplace_of_find_isSome (m : map V) (k : String) (v : V)
    (h : (find m k).isSome = true) : emplace m k v = m := by
  unfold emplace
  cases hf : find m k with
  | none => simp [hf] at h
  | some w => rfl

end std.map

namespace SystemHandle

theorem foldl_push (l : List (String × TypePtr)) (out : List TypePtr) :
    l.foldl (fun out it => out ++ [it.2]) out = out ++ l.map Prod.snd := by
  induction l generalizing out with
  | nil => simp
  | cons head rest ih => simp [ih]

theorem configure_fresh_types (a b : Nat) :
    std.map.emplace (std.map.emplace ([] : std.map TypePtr) "Coordinate2D" ⟨a, coord_2d⟩)
        "Coordinate3D" ⟨b, coord_3d⟩ =
      [("Coordinate2D", ⟨a, coord_2d⟩), ("Coordinate3D", ⟨b, coord_3d⟩)] := by
  rfl

theorem coord_2d_eq : coord_2d = ⟨"Coordinate2D", [("x", .INT), ("y", .INT)]⟩ := by decide

theorem coord_3d_eq :
    coord_3d = ⟨"Coordinate3D", [("x", .INT), ("y", .INT), ("z", .INT)]⟩ := by decide

end SystemHandle

/-- C5: on a freshly constructed handle `configure` returns true, keeps what
the output vector already holds and appends two type definitions:
`Coordinate2D` with the members x and y, then `Coordinate3D` with the members
x, y and z, all of kind INT. -/
theorem configure_fresh_reports_two_types (addr_2d addr_3d : Nat)
    (types : soss.RequiredTypes) (configuration : YAML.Node) (reported : List TypePtr) :
    (SystemHandle.configure {} addr_2d addr_3d types configuration reported).1 = true ∧
    (SystemHandle.configure {} addr_2d addr_3d types configuration reported).2.2 =
      reported ++
        [⟨addr_2d, ⟨"Coordinate2D", [("x", .INT), ("y", .INT)]⟩⟩,
         ⟨addr_3d, ⟨"Coordinate3D", [("x", .INT), ("y", .INT), ("z", .INT)]⟩⟩] ∧
    (SystemHandle.configure {} addr_2d addr_3d types configuration reported).2.1.types_ =
      [("Coordinate2D", ⟨addr_2d, ⟨"Coordinate2D", [("x", .INT), ("y", .INT)]⟩⟩),
       ("Coordinate3D",
        ⟨addr_3d, ⟨"Coordinate3D", [("x", .INT), ("y", .INT), ("z", .INT)]⟩⟩)] := by
  refine ⟨rfl, ?_, ?_⟩
  · simp only [SystemHandle.configure, xtypes.DynamicType.get_name]
    rw [SystemHandle.foldl_push]
    rfl
  · rfl

namespace std.map

variable {V : Type}

theorem mem_of_find (k : String) (v : V) :
    ∀ m : map V, find m k = some v → (k, v) ∈ m := by
  intro m
  induction m with
  | nil => intro h; simp [find] at h
  | cons head rest ih =>
    obtain ⟨k', v'⟩ := head
    intro h
    by_cases hk : k' = k
    · subst hk
      simp [find] at h
      simp [h]
    · simp only [find, hk, if_false] at h
      exact List.mem_cons_of_mem _ (ih h)

end std.map

namespace SystemHandle

theorem types_entry_name {s : SystemHandle} (h : Wellformed s) {k : String} {p : TypePtr}
    (hm : (k, p) ∈ s.types_) : p.pointee.get_name = k := by
  rcases h.1 with h0 | ⟨a, b, hab⟩
  · rw [h0] at hm; simp at hm
  · rw [hab] at hm
    simp only [List.mem_cons, Prod.mk.injEq, List.mem_singleton, List.not_mem_nil,
      or_false] at hm
    rcases hm with ⟨hk, hp⟩ | ⟨hk, hp⟩ <;> subst hk <;> subst hp <;> rfl

theorem wellformed_fresh : Wellformed {} := by
  refine ⟨Or.inl rfl, ?_, ?_⟩ <;> intro x hx <;> simp at hx

theorem configure_types_of_wellformed {s : SystemHandle} (h : Wellformed s) (a b : Nat)
    (types : soss.RequiredTypes) (configuration : YAML.Node) (reported : List TypePtr) :
    ∃ a' b', (s.configure a b types configuration reported).2.1.types_ =
        [("Coordinate2D", ⟨a', coord_2d⟩), ("Coordinate3D", ⟨b', coord_3d⟩)] ∧
      (s.types_ = [] ∨ s.types_ = (s.configure a b types configuration reported).2.1.types_) := by
  rcases h.1 with h0 | ⟨a', b', hab⟩
  · refine ⟨a, b, ?_, Or.inl h0⟩
    simp only [configure, h0]
    rfl
  · refine ⟨a', b', ?_, Or.inr ?_⟩
    · simp only [configure, hab]
      rfl
    · simp only [configure, hab]
      rfl

theorem wellformed_configure {s : SystemHandle} (h : Wellformed s) (a b : Nat)
    (types : soss.RequiredTypes) (configuration : YAML.Node) (reported : List TypePtr) :
    Wellformed (s.configure a b types configuration reported).2.1 := by
  obtain ⟨a', b', hty, hold⟩ := configure_types_of_wellformed h a b types configuration reported
  have hsubs : (s.configure a b types configuration reported).2.1.subscribers_ = s.subscribers_ :=
    rfl
  have hpubs : (s.configure a b types configuration reported).2.1.publishers_ = s.publishers_ :=
    rfl
  refine ⟨Or.inr ⟨a', b', hty⟩, ?_, ?_⟩
  · intro sub hsub
    rw [hsubs] at hsub
    have hm := h.2.1 sub hsub
    rcases hold with h0 | hsame
    · rw [h0] at hm; simp at hm
    · rw [← hsame]; exact hm
  · intro pub hpub
    rw [hpubs] at hpub
    have hm := h.2.2 pub hpub
    rcases hold with h0 | hsame
    · rw [h0] at hm; simp at hm
    · rw [← hsame]; exact hm

theorem subscribe_eq (s : SystemHandle) (topic_name message_type : String)
    (callback : SubscriptionCallback) (configuration : YAML.Node) :
    s.subscribe topic_name message_type callback configuration =
      match s.types_.find message_type with
      | some type =>
        ⟨.ok true, { s with subscribers_ := s.subscribers_ ++ [⟨topic_name, type, callback⟩] }⟩
      | none => ⟨.error .out_of_range, s⟩ := by
  unfold subscribe std.map.at_
  cases s.types_.find message_type <;> rfl

theorem advertise_eq (s : SystemHandle) (topic_name message_type : String)
    (configuration : YAML.Node) :
    s.advertise topic_name message_type configuration =
      match s.types_.find message_type with
      | some type =>
        ⟨.ok (some ⟨topic_name, type⟩),
         { s with publishers_ := s.publishers_ ++ [⟨topic_name, type⟩] }⟩
      | none => ⟨.error .out_of_range, s⟩ := by
  unfold advertise std.map.at_
  cases s.types_.find message_type with
  | none => rfl
  | some type => simp

theorem wellformed_subscribe {s : SystemHandle} (h : Wellformed s)
    (topic_name message_type : String) (callback : SubscriptionCallback)
    (configuration : YAML.Node) :
    Wellformed (s.subscribe topic_name message_type callback configuration).handle := by
  rw [subscribe_eq]
  cases hf : s.types_.find message_type with
  | none => exact h
  | some type =>
    have hm := std.map.mem_of_find _ _ _ hf
    have hn := types_entry_name h hm
    refine ⟨h.1, ?_, h.2.2⟩
    intro sub hsub
    simp only [List.mem_append, List.mem_singleton] at hsub
    rcases hsub with hsub | hsub
    · exact h.2.1 sub hsub
    · subst hsub
      simpa [hn] using hm

theorem wellformed_advertise {s : SystemHandle} (h : Wellformed s)
    (topic_name message_type : String) (configuration : YAML.Node) :
    Wellformed (s.advertise topic_name message_type configuration).handle := by
  rw [advertise_eq]
  cases hf : s.types_.find message_type with
  | none => exact h
  | some type =>
    have hm := std.map.mem_of_find _ _ _ hf
    have hn := types_entry_name h hm
    refine ⟨h.1, h.2.1, ?_⟩
    intro pub hpub
    simp only [List.mem_append, List.mem_singleton] at hpub
    rcases hpub with hpub | hpub
    · exact h.2.2 pub hpub
    · subst hpub
      simpa [hn] using hm

theorem spin_once_handle (s : SystemHandle) (host : Host) :
    (s.spin_once host).handle = s := by
  unfold spin_once
  rcases spin_loop host s.subscribers_ [] with ⟨calls, _ | _⟩ <;> rfl

theorem wellformed_step {s : SystemHandle} (h : Wellformed s) (call : Call) :
    Wellformed (step s call) := by
  cases call with
  | configure a b types configuration reported =>
    exact wellformed_configure h a b types configuration reported
  | okay => exact h
  | spin_once host => simpa [step, spin_once_handle] using h
  | subscribe topic_name message_type callback configuration =>
    exact wellformed_subscribe h topic_name message_type callback configuration
  | advertise topic_name message_type configuration =>
    exact wellformed_advertise h topic_name message_type configuration

theorem wellformed_foldl (calls : List Call) :
    ∀ s : SystemHandle, Wellformed s → Wellformed (calls.foldl step s) := by
  induction calls with
  | nil => intro s h; exact h
  | cons call rest ih => intro s h; exact ih _ (wellformed_step h call)

theorem wellformed_of_reachable {s : SystemHandle} (h : Reachable s) : Wellformed s := by
  obtain ⟨calls, rfl⟩ := h
  exact wellformed_foldl calls _ wellformed_fresh

end SystemHandle

/-- C8: `subscribe` returns true and appends one subscriber, made of the
topic, the registered type and the callback, when the type name is a key of
the type table, and otherwise throws `std::out_of_range` with all members as
they were; `advertise` does the same with the publishers and returns the
publisher it has appended. -/
theorem registration_succeeds_iff_type_known (s : SystemHandle)
    (topic_name message_type : String) (callback : SubscriptionCallback)
    (configuration : YAML.Node) :
    (s.subscribe topic_name message_type callback configuration =
      match s.types_.find message_type with
      | some type =>
        ⟨.ok true, { types_ := s.types_, publishers_ := s.publishers_,
                     subscribers_ := s.subscribers_ ++ [⟨topic_name, type, callback⟩] }⟩
      | none => ⟨.error .out_of_range, s⟩) ∧
    (s.advertise topic_name message_type configuration =
      match s.types_.find message_type with
      | some type =>
        ⟨.ok (some ⟨topic_name, type⟩),
         { types_ := s.types_, publishers_ := s.publishers_ ++ [⟨topic_name, type⟩],
           subscribers_ := s.subscribers_ }⟩
      | none => ⟨.error .out_of_range, s⟩) :=
  ⟨SystemHandle.subscribe_eq s topic_name message_type callback configuration,
   SystemHandle.advertise_eq s topic_name message_type configuration⟩

namespace SystemHandle

theorem configure_of_configured (s : SystemHandle) (p q : TypePtr)
    (h : s.types_ = [("Coordinate2D", p), ("Coordinate3D", q)]) (a b : Nat)
    (types : soss.RequiredTypes) (configuration : YAML.Node) (reported : List TypePtr) :
    s.configure a b types configuration reported = (true, s, reported ++ [p, q]) := by
  have hty : std.map.emplace
      (std.map.emplace s.types_ "Coordinate2D" ⟨a, coord_2d⟩) "Coordinate3D" ⟨b, coord_3d⟩ =
      s.types_ := by
    rw [h]; rfl
  have hname2 : coord_2d.get_name = "Coordinate2D" := rfl
  have hname3 : coord_3d.get_name = "Coordinate3D" := rfl
  simp only [configure, hname2, hname3, hty, foldl_push]
  rw [h]
  obtain ⟨types_, publishers_, subscribers_⟩ := s
  simp only at h
  subst h
  rfl

theorem types_step_of_configured (s : SystemHandle) (p q : TypePtr)
    (h : s.types_ = [("Coordinate2D", p), ("Coordinate3D", q)]) (call : Call) :
    (step s call).types_ = s.types_ := by
  cases call with
  | configure a b types configuration reported =>
    simp only [step, configure_of_configured s p q h]
  | okay => rfl
  | spin_once host => simp [step, spin_once_handle]
  | subscribe topic_name message_type callback configuration =>
    simp only [step, subscribe_eq]
    cases s.types_.find message_type <;> rfl
  | advertise topic_name message_type configuration =>
    simp only [step, advertise_eq]
    cases s.types_.find message_type <;> rfl

theorem types_foldl_of_configured (calls : List Call) (p q : TypePtr) :
    ∀ s : SystemHandle, s.types_ = [("Coordinate2D", p), ("Coordinate3D", q)] →
      (calls.foldl step s).types_ = [("Coordinate2D", p), ("Coordinate3D", q)] := by
  induction calls with
  | nil => intro s h; exact h
  | cons call rest ih =>
    intro s h
    exact ih _ ((types_step_of_configured s p q h call).trans h)

theorem holder_of_configured {s : SystemHandle} (p q : TypePtr)
    (h : s.types_ = [("Coordinate2D", p), ("Coordinate3D", q)]) {name : String} {type : TypePtr}
    (hm : (name, type) ∈ s.types_) : type = p ∨ type = q := by
  rw [h] at hm
  simp only [List.mem_cons, Prod.mk.injEq, List.mem_singleton, List.not_mem_nil,
    or_false] at hm
  rcases hm with ⟨_, hp⟩ | ⟨_, hp⟩
  · exact Or.inl hp
  · exact Or.inr hp

end SystemHandle

/-- C10: whatever has been called before the first `configure` and between the
first and a second one, the second call returns true and leaves all members,
the type table with the pointers it stores, the subscribers and the
publishers, as they were when it was called; the table still holds the two
pointers that the first call reported, which are those every subscriber and
publisher holds, and the second call appends the same two pointers, in the
same order, to its output vector: `Coordinate2D`, then `Coordinate3D`. The
first call itself leaves the subscribers and publishers as they were and the
type table too, unless it was empty. -/
theorem configure_is_idempotent (before between : List SystemHandle.Call)
    (a b a' b' : Nat) (types types' : soss.RequiredTypes)
    (configuration configuration' : YAML.Node) (reported reported' : List TypePtr) :
    ∃ p q : TypePtr,
      p.pointee = ⟨"Coordinate2D", [("x", .INT), ("y", .INT)]⟩ ∧
      q.pointee = ⟨"Coordinate3D", [("x", .INT), ("y", .INT), ("z", .INT)]⟩ ∧
      ((SystemHandle.run before).configure a b types configuration reported).1 = true ∧
      ((SystemHandle.run before).configure a b types configuration reported).2.2 =
        reported ++ [p, q] ∧
      ((SystemHandle.run before).configure a b types configuration reported).2.1.types_ =
        [("Coordinate2D", p), ("Coordinate3D", q)] ∧
      ((SystemHandle.run before).configure a b types configuration reported).2.1.subscribers_ =
        (SystemHandle.run before).subscribers_ ∧
      ((SystemHandle.run before).configure a b types configuration reported).2.1.publishers_ =
        (SystemHandle.run before).publishers_ ∧
      ((SystemHandle.run before).types_ = [] ∨
        (SystemHandle.run before).types_ = [("Coordinate2D", p), ("Coordinate3D", q)]) ∧
      (SystemHandle.run
          (before ++ [.configure a b types configuration reported] ++ between)).types_ =
        [("Coordinate2D", p), ("Coordinate3D", q)] ∧
      (∀ sub ∈ (SystemHandle.run
          (before ++ [.configure a b types configuration reported] ++ between)).subscribers_,
        sub.type_ = p ∨ sub.type_ = q) ∧
      (∀ pub ∈ (SystemHandle.run
          (before ++ [.configure a b types configuration reported] ++ between)).publishers_,
        pub.type_ = p ∨ pub.type_ = q) ∧
      (SystemHandle.run
          (before ++ [.configure a b types configuration reported] ++ between)).configure
          a' b' types' configuration' reported' =
        (true,
         SystemHandle.run (before ++ [.configure a b types configuration reported] ++ between),
         reported' ++ [p, q]) := by
  have hw : SystemHandle.Wellformed (SystemHandle.run before) :=
    SystemHandle.wellformed_of_reachable ⟨before, rfl⟩
  obtain ⟨p, q, hty, hold⟩ :=
    SystemHandle.configure_types_of_wellformed hw a b types configuration reported
  have hrun : SystemHandle.run
      (before ++ [.configure a b types configuration reported] ++ between) =
      between.foldl SystemHandle.step
        ((SystemHandle.run before).configure a b types configuration reported).2.1 := by
    simp [SystemHandle.run, List.foldl_append, SystemHandle.step]
  have hlater := SystemHandle.types_foldl_of_configured between ⟨p, SystemHandle.coord_2d⟩
    ⟨q, SystemHandle.coord_3d⟩ _ hty
  rw [← hrun] at hlater
  have hwl : SystemHandle.Wellformed (SystemHandle.run
      (before ++ [.configure a b types configuration reported] ++ between)) :=
    SystemHandle.wellformed_of_reachable ⟨_, rfl⟩
  have hout : ((SystemHandle.run before).configure a b types configuration reported).2.2 =
      reported ++
        ((SystemHandle.run before).configure a b types configuration reported).2.1.types_.map
          Prod.snd := by
    simp only [SystemHandle.configure]
    rw [SystemHandle.foldl_push]
  refine ⟨⟨p, SystemHandle.coord_2d⟩, ⟨q, SystemHandle.coord_3d⟩, SystemHandle.coord_2d_eq,
    SystemHandle.coord_3d_eq, rfl, ?_, hty, rfl, rfl, ?_, hlater, ?_, ?_, ?_⟩
  · rw [hout, hty]; rfl
  · rcases hold with h0 | hsame
    · exact Or.inl h0
    · exact Or.inr (hsame.trans hty)
  · intro sub hsub
    exact SystemHandle.holder_of_configured _ _ hlater (hwl.2.1 sub hsub)
  · intro pub hpub
    exact SystemHandle.holder_of_configured _ _ hlater (hwl.2.2 pub hpub)
  · exact SystemHandle.configure_of_configured _ _ _ hlater a' b' types' configuration' reported'

/-- C10, at a concrete input: a second `configure`, with other addresses, on
a handle that has been given a subscriber and a publisher after the first
one. The members stay as they were, the subscriber still holds the object at
address 1, and the objects at the addresses 1 and 2 are reported again. -/
theorem configure_is_idempotent_witness :
    ∃ p q : TypePtr,
      p.addr = 1 ∧ q.addr = 2 ∧
      (∀ sub ∈ (SystemHandle.run
          [.configure 1 2 ⟨[], []⟩ .Null [], .subscribe "a" "Coordinate2D" (.target 7) .Null,
           .advertise "c" "Coordinate3D" .Null]).subscribers_, sub.type_ = p ∨ sub.type_ = q) ∧
      (SystemHandle.run
          [.configure 1 2 ⟨[], []⟩ .Null [], .subscribe "a" "Coordinate2D" (.target 7) .Null,
           .advertise "c" "Coordinate3D" .Null]).subscribers_.length = 1 ∧
      (SystemHandle.run
          [.configure 1 2 ⟨[], []⟩ .Null [], .subscribe "a" "Coordinate2D" (.target 7) .Null,
           .advertise "c" "Coordinate3D" .Null]).configure 3 4 ⟨[], []⟩ .Null [] =
        (true,
         SystemHandle.run
          [.configure 1 2 ⟨[], []⟩ .Null [], .subscribe "a" "Coordinate2D" (.target 7) .Null,
           .advertise "c" "Coordinate3D" .Null],
         [p, q]) := by
  obtain ⟨p, q, _, _, _, hfirst, _, _, _, _, _, hsubs, _, hsecond⟩ :=
    configure_is_idempotent [] [.subscribe "a" "Coordinate2D" (.target 7) .Null,
      .advertise "c" "Coordinate3D" .Null] 1 2 3 4 ⟨[], []⟩ ⟨[], []⟩ .Null .Null [] []
  have hpq : [p, q] = [⟨1, SystemHandle.coord_2d⟩, ⟨2, SystemHandle.coord_3d⟩] :=
    hfirst.symm.trans rfl
  simp only [List.cons.injEq, and_true] at hpq
  exact ⟨p, q, by rw [hpq.1], by rw [hpq.2], hsubs, rfl, hsecond⟩

namespace SystemHandle

theorem receive_coord_2d (sub : Subscriber) (h : sub.type_.pointee = coord_2d) (host : Host)
    (history : List Invocation) :
    sub.receive host history (std.map.of_list [("x", 3), ("y", 6)]) =
      match (fixed_values_call sub).callback.throws host history
          (fixed_values_call sub).message with
      | some e => ⟨[fixed_values_call sub], .error e⟩
      | none => ⟨[fixed_values_call sub], .ok ()⟩ := by
  have hcall : fixed_values_call sub =
      ⟨sub.soss_callback_, ⟨coord_2d, [("x", "3"), ("y", "6")]⟩⟩ := by
    unfold fixed_values_call
    rw [h]
    rfl
  have hconv : Subscriber.convert (std.map.of_list [("x", 3), ("y", 6)])
      coord_2d.get_members (xtypes.DynamicData.mk_of coord_2d) =
      .ok ⟨coord_2d, [("x", "3"), ("y", "6")]⟩ := rfl
  unfold Subscriber.receive
  rw [h, hconv, hcall]

theorem receive_coord_3d (sub : Subscriber) (h : sub.type_.pointee = coord_3d) (host : Host)
    (history : List Invocation) :
    sub.receive host history (std.map.of_list [("x", 3), ("y", 6), ("z", 9)]) =
      match (fixed_values_call sub).callback.throws host history
          (fixed_values_call sub).message with
      | some e => ⟨[fixed_values_call sub], .error e⟩
      | none => ⟨[fixed_values_call sub], .ok ()⟩ := by
  have hcall : fixed_values_call sub =
      ⟨sub.soss_callback_, ⟨coord_3d, [("x", "3"), ("y", "6"), ("z", "9")]⟩⟩ := by
    unfold fixed_values_call
    rw [h]
    rfl
  have hconv : Subscriber.convert (std.map.of_list [("x", 3), ("y", 6), ("z", 9)])
      coord_3d.get_members (xtypes.DynamicData.mk_of coord_3d) =
      .ok ⟨coord_3d, [("x", "3"), ("y", "6"), ("z", "9")]⟩ := rfl
  unfold Subscriber.receive
  rw [h, hconv, hcall]

theorem subscriber_type_of_wellformed {s : SystemHandle} (h : Wellformed s)
    {sub : Subscriber} (hsub : sub ∈ s.subscribers_) :
    sub.type_.pointee = coord_2d ∨ sub.type_.pointee = coord_3d := by
  have hm := h.2.1 sub hsub
  rcases h.1 with h0 | ⟨a, b, hab⟩
  · rw [h0] at hm; simp at hm
  · rw [hab] at hm
    simp only [List.mem_cons, Prod.mk.injEq, List.mem_singleton, List.not_mem_nil,
      or_false] at hm
    rcases hm with ⟨_, hp⟩ | ⟨_, hp⟩
    · left; rw [hp]
    · right; rw [hp]

theorem spin_loop_eq_deliver (host : Host) (subs : List Subscriber) :
    (∀ sub ∈ subs, sub.type_.pointee = coord_2d ∨ sub.type_.pointee = coord_3d) →
    ∀ calls : List Invocation,
      spin_loop host subs calls = deliver host calls (subs.map fixed_values_call) := by
  induction subs with
  | nil => intro _ calls; rfl
  | cons sub rest ih =>
    intro hall calls
    have hrest : ∀ x ∈ rest, x.type_.pointee = coord_2d ∨ x.type_.pointee = coord_3d :=
      fun x hx => hall x (List.mem_cons_of_mem _ hx)
    rcases hall sub (List.mem_cons_self _ _) with h2 | h3
    · have hname : sub.get_type.pointee.get_name = "Coordinate2D" := by
        show sub.type_.pointee.get_name = _
        rw [h2]; rfl
      simp only [spin_loop, hname, if_true, receive_coord_2d sub h2, List.map_cons, deliver]
      cases (fixed_values_call sub).callback.throws host calls (fixed_values_call sub).message with
      | some e => rfl
      | none => exact ih hrest _
    · have hname : sub.get_type.pointee.get_name = "Coordinate3D" := by
        show sub.type_.pointee.get_name = _
        rw [h3]; rfl
      have hne : ¬ ("Coordinate3D" = "Coordinate2D") := by decide
      simp only [spin_loop, hname, hne, if_true, if_false, receive_coord_3d sub h3,
        List.map_cons, deliver]
      cases (fixed_values_call sub).callback.throws host calls (fixed_values_call sub).message with
      | some e => rfl
      | none => exact ih hrest _

/-- The two ways `deliver` can end: all calls have returned, or the first call
that throws is the last one made. -/
theorem deliver_cases (host : Host) (todo : List Invocation) :
    ∀ done : List Invocation,
      (deliver host done todo = (done ++ todo, .ok ()) ∧
        ∀ (n : Nat) (call : Invocation), todo[n]? = some call →
          call.callback.throws host (done ++ todo.take n) call.message = none) ∨
      (∃ (n : Nat) (call : Invocation) (e : std.Exception), todo[n]? = some call ∧
        call.callback.throws host (done ++ todo.take n) call.message = some e ∧
        (∀ (i : Nat) (earlier : Invocation), i < n → todo[i]? = some earlier →
          earlier.callback.throws host (done ++ todo.take i) earlier.message = none) ∧
        deliver host done todo = (done ++ todo.take (n + 1), .error e)) := by
  induction todo with
  | nil =>
    intro done
    left
    exact ⟨by simp [deliver], fun n call h => by simp at h⟩
  | cons first rest ih =>
    intro done
    cases hfirst : first.callback.throws host done first.message with
    | some e =>
      right
      refine ⟨0, first, e, by simp, by simpa using hfirst, fun i _ hi => absurd hi (Nat.not_lt_zero i),
        by simp [deliver, hfirst]⟩
    | none =>
      rcases ih (done ++ [first]) with ⟨hall, hnone⟩ | ⟨n, call, e, hn, hthrow, hbefore, hres⟩
      · left
        refine ⟨by simp [deliver, hfirst, hall], ?_⟩
        intro n call hcall
        cases n with
        | zero =>
          simp only [List.getElem?_cons_zero, Option.some.injEq] at hcall
          subst hcall
          simpa using hfirst
        | succ n =>
          have := hnone n call (by simpa using hcall)
          simpa [List.append_assoc] using this
      · right
        refine ⟨n + 1, call, e, by simpa using hn, by simpa [List.append_assoc] using hthrow,
          ?_, by simp [deliver, hfirst, hres]⟩
        intro i earlier hi hearlier
        cases i with
        | zero =>
          simp only [List.getElem?_cons_zero, Option.some.injEq] at hearlier
          subst hearlier
          simpa using hfirst
        | succ i =>
          have := hbefore i earlier (by omega) (by simpa using hearlier)
          simpa [List.append_assoc] using this

theorem spin_once_eq_deliver {s : SystemHandle} (hw : Wellformed s) (host : Host) :
    s.spin_once host =
      match deliver host [] (s.subscribers_.map fixed_values_call) with
      | (calls, .error e) => ⟨.error e, calls, s⟩
      | (calls, .ok _) => ⟨.ok true, calls, s⟩ := by
  unfold spin_once
  rw [spin_loop_eq_deliver host s.subscribers_
    (fun sub hsub => subscriber_type_of_wellformed hw hsub) []]
  rfl

theorem types_step_of_not_configure (s : SystemHandle) (call : Call)
    (h : call.is_configure = false) : (step s call).types_ = s.types_ := by
  cases call with
  | configure a b types configuration reported => simp [Call.is_configure] at h
  | okay => rfl
  | spin_once host => simp [step, spin_once_handle]
  | subscribe topic_name message_type callback configuration =>
    simp only [step, subscribe_eq]
    cases s.types_.find message_type <;> rfl
  | advertise topic_name message_type configuration =>
    simp only [step, advertise_eq]
    cases s.types_.find message_type <;> rfl

theorem types_foldl_of_no_configure (calls : List Call) :
    (∀ call ∈ calls, call.is_configure = false) →
    ∀ s : SystemHandle, (calls.foldl step s).types_ = s.types_ := by
  induction calls with
  | nil => intro _ s; rfl
  | cons call rest ih =>
    intro h s
    rw [List.foldl_cons, ih (fun c hc => h c (List.mem_cons_of_mem _ hc))]
    exact types_step_of_not_configure s call (h call (List.mem_cons_self _ _))

end SystemHandle

/-- C6, as the code has it: a handle with a subscriber whose callback is an
empty `std::function`. `spin_once` does not return true: the exception
`std::bad_function_call` leaves it at the first subscriber, and the callback
of the second subscriber is not called. -/
theorem spin_once_throws_on_empty_callback :
    SystemHandle.silent_first =
      SystemHandle.run [.configure 1 2 ⟨[], []⟩ .Null [],
        .subscribe "a" "Coordinate2D" .empty .Null,
        .subscribe "b" "Coordinate3D" (.target 8) .Null] ∧
    SystemHandle.silent_first.subscribers_.map (fun sub => sub.soss_callback_) =
      [.empty, .target 8] ∧
    (SystemHandle.silent_first.spin_once SystemHandle.quiet).result =
      .error .bad_function_call ∧
    (SystemHandle.silent_first.spin_once SystemHandle.quiet).result ≠ .ok true ∧
    (SystemHandle.silent_first.spin_once SystemHandle.quiet).calls.map
      (fun call => call.callback) = [.empty] := by
  refine ⟨rfl, by decide, rfl, ?_, by decide⟩
  intro h
  have hres : (SystemHandle.silent_first.spin_once SystemHandle.quiet).result =
      .error .bad_function_call := rfl
  rw [hres] at h
  cases h

/-- C6, amended: in every reachable state `spin_once` leaves the members as
they are and calls the callbacks of the subscribers in registration order,
each with x="3", y="6" for a subscriber of type `Coordinate2D` and x="3",
y="6", z="9" for one of type `Coordinate3D`; every subscriber has one of
these two types. When none of these calls throws, every callback is called
once and `spin_once` returns true, the value of `okay()`. When one of them
throws, its exception leaves `spin_once` and the callbacks after it are not
called. -/
theorem spin_once_calls_until_a_callback_throws (s : SystemHandle)
    (h : SystemHandle.Reachable s) (host : Host) :
    (s.spin_once host).handle = s ∧
    s.okay = true ∧
    (∀ sub ∈ s.subscribers_,
      sub.type_.pointee = ⟨"Coordinate2D", [("x", .INT), ("y", .INT)]⟩ ∨
      sub.type_.pointee = ⟨"Coordinate3D", [("x", .INT), ("y", .INT), ("z", .INT)]⟩) ∧
    ((∀ (n : Nat) (call : Invocation),
        (s.subscribers_.map SystemHandle.fixed_values_call)[n]? = some call →
        call.callback.throws host
          ((s.subscribers_.map SystemHandle.fixed_values_call).take n) call.message = none) →
      (s.spin_once host).result = .ok s.okay ∧
      (s.spin_once host).calls = s.subscribers_.map SystemHandle.fixed_values_call) ∧
    (∀ (n : Nat) (call : Invocation) (e : std.Exception),
      (s.subscribers_.map SystemHandle.fixed_values_call)[n]? = some call →
      (∀ (i : Nat) (earlier : Invocation), i < n →
        (s.subscribers_.map SystemHandle.fixed_values_call)[i]? = some earlier →
        earlier.callback.throws host
          ((s.subscribers_.map SystemHandle.fixed_values_call).take i) earlier.message = none) →
      call.callback.throws host
        ((s.subscribers_.map SystemHandle.fixed_values_call).take n) call.message = some e →
      (s.spin_once host).result = .error e ∧
      (s.spin_once host).calls =
        (s.subscribers_.map SystemHandle.fixed_values_call).take (n + 1)) := by
  have hw := SystemHandle.wellformed_of_reachable h
  have hspin := SystemHandle.spin_once_eq_deliver hw host
  have hcases := SystemHandle.deliver_cases host
    (s.subscribers_.map SystemHandle.fixed_values_call) []
  simp only [List.nil_append] at hcases
  refine ⟨SystemHandle.spin_once_handle s host, rfl, ?_, ?_, ?_⟩
  · intro sub hsub
    rw [← SystemHandle.coord_2d_eq, ← SystemHandle.coord_3d_eq]
    exact SystemHandle.subscriber_type_of_wellformed hw hsub
  · intro hquiet
    rcases hcases with ⟨hall, _⟩ | ⟨n, call, e, hn, hthrow, _, _⟩
    · rw [hspin, hall]
      exact ⟨rfl, rfl⟩
    · rw [hquiet n call hn] at hthrow
      cases hthrow
  · intro n call e hn hbefore hthrow
    rcases hcases with ⟨_, hnone⟩ | ⟨m, call', e', hm, hthrow', hbefore', hres⟩
    · rw [hnone n call hn] at hthrow
      cases hthrow
    · have hmn : m = n := by
        rcases Nat.lt_trichotomy m n with hlt | heq | hgt
        · rw [hbefore m call' hlt hm] at hthrow'
          cases hthrow'
        · exact heq
        · rw [hbefore' n call hgt hn] at hthrow
          cases hthrow
      subst hmn
      rw [hn] at hm
      cases hm
      rw [hthrow] at hthrow'
      cases hthrow'
      rw [hspin, hres]
      exact ⟨rfl, rfl⟩

/-- C6, amended, at concrete inputs: a configured handle with a subscriber of
each type whose callbacks return, and one whose first subscriber has an empty
callback. -/
theorem spin_once_calls_until_a_callback_throws_witness :
    ((SystemHandle.busy.spin_once SystemHandle.quiet).result = .ok true ∧
     (SystemHandle.busy.spin_once SystemHandle.quiet).calls =
      [⟨.target 7, ⟨⟨"Coordinate2D", [("x", .INT), ("y", .INT)]⟩, [("x", "3"), ("y", "6")]⟩⟩,
       ⟨.target 8, ⟨⟨"Coordinate3D", [("x", .INT), ("y", .INT), ("z", .INT)]⟩,
                    [("x", "3"), ("y", "6"), ("z", "9")]⟩⟩]) ∧
    ((SystemHandle.silent_first.spin_once SystemHandle.quiet).result =
        .error .bad_function_call ∧
     (SystemHandle.silent_first.spin_once SystemHandle.quiet).calls =
      [⟨.empty, ⟨⟨"Coordinate2D", [("x", .INT), ("y", .INT)]⟩, [("x", "3"), ("y", "6")]⟩⟩]) :=
  ⟨(spin_once_calls_until_a_callback_throws SystemHandle.busy ⟨_, rfl⟩
      SystemHandle.quiet).2.2.2.1
      (fun n call hcall => by
        have hmem : call ∈ SystemHandle.busy.subscribers_.map SystemHandle.fixed_values_call :=
          List.getElem?_mem hcall
        have hlist : SystemHandle.busy.subscribers_.map SystemHandle.fixed_values_call =
            [⟨.target 7, ⟨SystemHandle.coord_2d, [("x", "3"), ("y", "6")]⟩⟩,
             ⟨.target 8, ⟨SystemHandle.coord_3d, [("x", "3"), ("y", "6"), ("z", "9")]⟩⟩] := by
          decide
        rw [hlist] at hmem
        simp only [List.mem_cons, List.mem_singleton, List.not_mem_nil, or_false] at hmem
        rcases hmem with hEq | hEq <;> subst hEq <;> rfl),
   (spin_once_calls_until_a_callback_throws SystemHandle.silent_first ⟨_, rfl⟩
      SystemHandle.quiet).2.2.2.2 0
      ⟨.empty, ⟨SystemHandle.coord_2d, [("x", "3"), ("y", "6")]⟩⟩ .bad_function_call
      (by decide) (fun i _ hi => absurd hi (Nat.not_lt_zero i)) rfl⟩

/-- C9: in every state reachable from a fresh handle the keys of the type
table are among `Coordinate2D` and `Coordinate3D` and the type of every
subscriber and publisher is stored in the type table; `subscribe` and
`advertise` throw as long as `configure` has not been called; and `spin_once`
passes no subscriber over: every subscriber has one of the two types that the
loop tests for, so that the callbacks are called in registration order until
all have been called and `spin_once` returns true, or until one of them
throws. -/
theorem reachable_state_invariant (s : SystemHandle) (h : SystemHandle.Reachable s) :
    (∀ entry ∈ s.types_, entry.1 = "Coordinate2D" ∨ entry.1 = "Coordinate3D") ∧
    (∀ sub ∈ s.subscribers_, (sub.get_type.pointee.get_name, sub.get_type) ∈ s.types_) ∧
    (∀ pub ∈ s.publishers_, (pub.get_type.pointee.get_name, pub.get_type) ∈ s.types_) ∧
    (∀ calls, SystemHandle.run calls = s → (∀ call ∈ calls, call.is_configure = false) →
      ∀ (topic_name message_type : String) (callback : SubscriptionCallback)
        (configuration : YAML.Node),
        (s.subscribe topic_name message_type callback configuration).result =
          .error .out_of_range ∧
        (s.advertise topic_name message_type configuration).result =
          .error .out_of_range) ∧
    (∀ sub ∈ s.subscribers_,
      sub.get_type.pointee.get_name = "Coordinate2D" ∨
      sub.get_type.pointee.get_name = "Coordinate3D") ∧
    (∀ host : Host,
      ((s.spin_once host).result = .ok true ∧
        (s.spin_once host).calls.map (fun call => call.callback) =
          s.subscribers_.map (fun sub => sub.soss_callback_)) ∨
      (∃ (n : Nat) (sub : Subscriber) (e : std.Exception), s.subscribers_[n]? = some sub ∧
        sub.soss_callback_.throws host (s.spin_once host).calls.dropLast
          (SystemHandle.fixed_values_call sub).message = some e ∧
        (s.spin_once host).result = .error e ∧
        (s.spin_once host).calls.map (fun call => call.callback) =
          (s.subscribers_.take (n + 1)).map (fun sub => sub.soss_callback_))) := by
  have hw := SystemHandle.wellformed_of_reachable h
  refine ⟨?_, hw.2.1, hw.2.2, ?_, ?_, ?_⟩
  · intro entry hentry
    rcases hw.1 with h0 | ⟨a, b, hab⟩
    · rw [h0] at hentry; simp at hentry
    · rw [hab] at hentry
      simp only [List.mem_cons, List.mem_singleton, List.not_mem_nil, or_false] at hentry
      rcases hentry with he | he <;> rw [he]
      · left; rfl
      · right; rfl
  · intro calls hrun hno topic_name message_type callback configuration
    have hty : s.types_ = [] := by
      rw [← hrun]
      exact SystemHandle.types_foldl_of_no_configure calls hno {}
    rw [SystemHandle.subscribe_eq, SystemHandle.advertise_eq, hty]
    exact ⟨rfl, rfl⟩
  · intro sub hsub
    rcases SystemHandle.subscriber_type_of_wellformed hw hsub with h2 | h3
    · left
      show sub.type_.pointee.get_name = _
      rw [h2]; rfl
    · right
      show sub.type_.pointee.get_name = _
      rw [h3]; rfl
  · intro host
    have hspin := SystemHandle.spin_once_eq_deliver hw host
    have hcases := SystemHandle.deliver_cases host
      (s.subscribers_.map SystemHandle.fixed_values_call) []
    simp only [List.nil_append] at hcases
    rcases hcases with ⟨hall, _⟩ | ⟨n, call, e, hn, hthrow, _, hres⟩
    · left
      rw [hspin, hall]
      refine ⟨rfl, ?_⟩
      simp [List.map_map, Function.comp_def, SystemHandle.fixed_values_call]
    · right
      rw [List.getElem?_map] at hn
      cases hsub : s.subscribers_[n]? with
      | none => simp [hsub] at hn
      | some sub =>
        simp only [hsub, Option.map_some', Option.some.injEq] at hn
        subst hn
        have hdrop : ((s.subscribers_.map SystemHandle.fixed_values_call).take (n + 1)).dropLast =
            (s.subscribers_.map SystemHandle.fixed_values_call).take n := by
          rw [List.take_succ, List.getElem?_map, hsub]
          simp
        refine ⟨n, sub, e, hsub, ?_, ?_, ?_⟩
        · rw [hspin, hres]
          show sub.soss_callback_.throws host
            ((s.subscribers_.map SystemHandle.fixed_values_call).take (n + 1)).dropLast _ = _
          rw [hdrop]
          exact hthrow
        · rw [hspin, hres]
        · rw [hspin, hres]
          show ((s.subscribers_.map SystemHandle.fixed_values_call).take (n + 1)).map _ = _
          rw [← List.map_take, List.map_map]
          rfl

/-- C9, at concrete inputs: a configured handle with two subscribers and a
publisher, whose types are stored in the type table and none of whose
subscribers is passed over; and a handle on which `subscribe` has been tried
before `configure`. -/
theorem reachable_state_invariant_witness :
    SystemHandle.busy.types_.map Prod.fst = ["Coordinate2D", "Coordinate3D"] ∧
    SystemHandle.busy.subscribers_.length = 2 ∧
    SystemHandle.busy.publishers_.length = 1 ∧
    (∀ sub ∈ SystemHandle.busy.subscribers_,
      (sub.get_type.pointee.get_name, sub.get_type) ∈ SystemHandle.busy.types_) ∧
    (∀ pub ∈ SystemHandle.busy.publishers_,
      (pub.get_type.pointee.get_name, pub.get_type) ∈ SystemHandle.busy.types_) ∧
    (∀ sub ∈ SystemHandle.busy.subscribers_,
      sub.get_type.pointee.get_name = "Coordinate2D" ∨
      sub.get_type.pointee.get_name = "Coordinate3D") ∧
    ((SystemHandle.run [.subscribe "a" "Coordinate2D" (.target 7) .Null]).subscribe
        "b" "Coordinate3D" (.target 8) .Null).result = .error .out_of_range :=
  ⟨by decide, by decide, by decide,
   (reachable_state_invariant SystemHandle.busy ⟨_, rfl⟩).2.1,
   (reachable_state_invariant SystemHandle.busy ⟨_, rfl⟩).2.2.1,
   (reachable_state_invariant SystemHandle.busy ⟨_, rfl⟩).2.2.2.2.1,
   ((reachable_state_invariant
      (SystemHandle.run [.subscribe "a" "Coordinate2D" (.target 7) .Null]) ⟨_, rfl⟩).2.2.2.1
    [.subscribe "a" "Coordinate2D" (.target 7) .Null] rfl (by decide)
    "b" "Coordinate3D" (.target 8) .Null).1⟩

/-! ## `std::stoi` reads back what `std::to_string` writes -/

namespace std

theorem digitChar_isDigit (d : Nat) (h : d < 10) : (Nat.digitChar d).isDigit = true := by
  interval_cases d <;> decide

theorem digitChar_value (d : Nat) (h : d < 10) : (Nat.digitChar d).toNat - 48 = d := by
  interval_cases d <;> decide

theorem toDigitsCore_all_digits (fuel : Nat) :
    ∀ (n : Nat) (acc : List Char), (∀ c ∈ acc, c.isDigit = true) →
      ∀ c ∈ Nat.toDigitsCore 10 fuel n acc, c.isDigit = true := by
  induction fuel with
  | zero => intro n acc hacc c hc; exact hacc c (by simpa [Nat.toDigitsCore] using hc)
  | succ fuel ih =>
    intro n acc hacc c hc
    have hd : (Nat.digitChar (n % 10)).isDigit = true :=
      digitChar_isDigit _ (Nat.mod_lt _ (by decide))
    have hacc' : ∀ x ∈ Nat.digitChar (n % 10) :: acc, x.isDigit = true := by
      intro x hx
      rcases List.mem_cons.mp hx with hx | hx
      · rw [hx]; exact hd
      · exact hacc x hx
    simp only [Nat.toDigitsCore] at hc
    split at hc
    · exact hacc' c hc
    · exact ih _ _ hacc' c hc

theorem toDigitsCore_ne_nil (fuel n : Nat) (acc : List Char) :
    Nat.toDigitsCore 10 (fuel + 1) n acc ≠ [] := by
  induction fuel generalizing n acc with
  | zero =>
    simp only [Nat.toDigitsCore]
    split <;> simp
  | succ fuel ih =>
    rw [Nat.toDigitsCore]
    split
    · simp
    · exact ih _ _

theorem toDigitsCore_value (fuel : Nat) :
    ∀ (n : Nat) (acc : List Char), n < fuel →
      (Nat.toDigitsCore 10 fuel n acc).foldl (fun a c => 10 * a + (c.toNat - 48)) 0 =
        acc.foldl (fun a c => 10 * a + (c.toNat - 48)) n := by
  induction fuel with
  | zero => intro n acc h; omega
  | succ fuel ih =>
    intro n acc h
    have hv : (Nat.digitChar (n % 10)).toNat - 48 = n % 10 :=
      digitChar_value _ (Nat.mod_lt _ (by decide))
    simp only [Nat.toDigitsCore]
    split
    · rename_i h0
      have : n % 10 = n := by omega
      simp only [List.foldl_cons, Nat.mul_zero, Nat.zero_add, hv]
      rw [this]
    · rename_i h0
      have hlt : n / 10 < fuel := by omega
      rw [ih _ _ hlt]
      simp only [List.foldl_cons, hv]
      have : 10 * (n / 10) + n % 10 = n := Nat.div_add_mod n 10
      rw [this]

theorem toDigits_all_digits (n : Nat) : ∀ c ∈ Nat.toDigits 10 n, c.isDigit = true :=
  toDigitsCore_all_digits _ _ _ (by simp)

theorem toDigits_ne_nil (n : Nat) : Nat.toDigits 10 n ≠ [] :=
  toDigitsCore_ne_nil _ _ _

theorem digits_value_toDigits (n : Nat) : digits_value (Nat.toDigits 10 n) = n := by
  unfold digits_value Nat.toDigits
  rw [toDigitsCore_value _ _ _ (Nat.lt_succ_self n)]
  rfl

theorem isspace_of_isDigit (c : Char) (h : c.isDigit = true) : isspace c = false := by
  have h1 : 48 ≤ c.toNat ∧ c.toNat ≤ 57 := by
    simp only [Char.isDigit, Bool.and_eq_true, decide_eq_true_eq] at h
    exact h
  have hne : ∀ d : Char, d.toNat < 48 → ¬ c = d := by
    intro d hd hcd
    subst hcd
    omega
  have h11 : ¬ c.toNat = 11 := by omega
  have h12 : ¬ c.toNat = 12 := by omega
  simp [isspace, hne ' ' (by decide), hne '\t' (by decide), hne '\n' (by decide),
    hne '\r' (by decide), h11, h12]

theorem takeWhile_all {α : Type} (p : α → Bool) :
    ∀ l : List α, (∀ x ∈ l, p x = true) → l.takeWhile p = l := by
  intro l
  induction l with
  | nil => intro _; rfl
  | cons x rest ih =>
    intro h
    have hx : p x = true := h x (List.mem_cons_self _ _)
    simp [List.takeWhile, hx, ih (fun y hy => h y (List.mem_cons_of_mem _ hy))]

/-- What `std::stoi` makes of an optional minus sign followed by digits. -/
theorem stoi_signed_digits (negative : Bool) (ds : List Char) (hne : ds ≠ [])
    (hall : ∀ c ∈ ds, c.isDigit = true)
    (hrange : INT_MIN ≤ (if negative then -((digits_value ds : Nat) : Int)
        else ((digits_value ds : Nat) : Int)) ∧
      (if negative then -((digits_value ds : Nat) : Int)
        else ((digits_value ds : Nat) : Int)) ≤ INT_MAX) :
    stoi (String.mk (if negative then '-' :: ds else ds)) =
      .ok (if negative then -((digits_value ds : Nat) : Int)
        else ((digits_value ds : Nat) : Int)) := by
  obtain ⟨d, rest, rfl⟩ := List.exists_cons_of_ne_nil hne
  have hd : d.isDigit = true := hall d (List.mem_cons_self _ _)
  have hd1 : 48 ≤ d.toNat := by
    simp only [Char.isDigit, Bool.and_eq_true, decide_eq_true_eq] at hd
    exact hd.1
  have hminus : ¬ d = '-' := by
    intro hEq; subst hEq; revert hd1; decide
  have hplus : ¬ d = '+' := by
    intro hEq; subst hEq; revert hd1; decide
  have hsp : isspace d = false := isspace_of_isDigit d hd
  have hsm : isspace '-' = false := by decide
  have htake : (d :: rest).takeWhile Char.isDigit = d :: rest := takeWhile_all _ _ hall
  have hsign : read_sign (d :: rest) = (false, d :: rest) := by
    unfold read_sign
    split
    · rename_i heq
      simp only [List.cons.injEq] at heq
      exact absurd heq.1 hminus
    · rename_i heq
      simp only [List.cons.injEq] at heq
      exact absurd heq.1 hplus
    · rfl
  have hsign' : read_sign ('-' :: d :: rest) = (true, d :: rest) := rfl
  cases negative with
  | true =>
    simp only [if_true] at hrange ⊢
    unfold stoi
    simp only [List.dropWhile, hsm, hsign', htake]
    have h1 : ¬ (-((digits_value (d :: rest) : Nat) : Int) < INT_MIN ∨
        INT_MAX < -((digits_value (d :: rest) : Nat) : Int)) := by omega
    simp [h1]
  | false =>
    simp only [Bool.false_eq_true, if_false] at hrange ⊢
    unfold stoi
    simp only [List.dropWhile, hsp, hsign, htake]
    have h1 : ¬ (((digits_value (d :: rest) : Nat) : Int) < INT_MIN ∨
        INT_MAX < ((digits_value (d :: rest) : Nat) : Int)) := by omega
    simp [h1]

theorem stoi_to_string (value : Int) (h : INT_MIN ≤ value ∧ value ≤ INT_MAX) :
    stoi (to_string value) = .ok value := by
  unfold to_string
  by_cases hneg : value < 0
  · have hv : -((digits_value (Nat.toDigits 10 value.natAbs) : Nat) : Int) = value := by
      rw [digits_value_toDigits]; omega
    have := stoi_signed_digits true (Nat.toDigits 10 value.natAbs) (toDigits_ne_nil _)
      (toDigits_all_digits _) (by simpa [hv] using h)
    simpa [hneg, hv] using this
  · have hv : ((digits_value (Nat.toDigits 10 value.natAbs) : Nat) : Int) = value := by
      rw [digits_value_toDigits]; omega
    have := stoi_signed_digits false (Nat.toDigits 10 value.natAbs) (toDigits_ne_nil _)
      (toDigits_all_digits _) (by simpa [hv] using h)
    simpa [hneg, hv] using this

end std

namespace std.map

variable {V : Type}

theorem find_isSome_of_mem (k : String) (v : V) :
    ∀ m : map V, (k, v) ∈ m → (find m k).isSome = true := by
  intro m
  induction m with
  | nil => intro h; simp at h
  | cons head rest ih =>
    obtain ⟨k', v'⟩ := head
    intro h
    by_cases hk : k' = k
    · simp [find, hk]
    · simp only [find, hk, if_false]
      rcases List.mem_cons.mp h with h | h
      · simp only [Prod.mk.injEq] at h
        exact absurd h.1.symm hk
      · exact ih h

end std.map

theorem Subscriber.receive_convert_ok (system_message : std.map Int) :
    ∀ (members : List (String × xtypes.Kind)) (message : xtypes.DynamicData),
      (∀ member ∈ members, (system_message.find member.1).isSome = true) →
      ∃ converted, Subscriber.convert system_message members message = .ok converted ∧
        converted.type_ = message.type_ ∧
        ∀ k, std.map.find converted.values_ k =
          if (std.map.find members k).isSome then (system_message.find k).map std.to_string
          else std.map.find message.values_ k := by
  intro members
  induction members with
  | nil =>
    intro message _
    exact ⟨message, rfl, rfl, fun k => by simp [std.map.find]⟩
  | cons member rest ih =>
    obtain ⟨name, kind⟩ := member
    intro message hhas
    have h0 := hhas (name, kind) (List.mem_cons_self _ _)
    obtain ⟨value, hvalue⟩ := Option.isSome_iff_exists.mp h0
    simp only at hvalue
    obtain ⟨converted, hconv, htype, hfind⟩ :=
      ih (message.set name (std.to_string value))
        (fun m hm => hhas m (List.mem_cons_of_mem _ hm))
    refine ⟨converted, ?_, ?_, ?_⟩
    · simp only [Subscriber.convert, std.map.at_, hvalue]
      exact hconv
    · rw [htype]; rfl
    · intro k
      rw [hfind k]
      simp only [xtypes.DynamicData.set, std.map.find_assign, std.map.find]
      by_cases hk : name = k
      · subst hk
        simp [hvalue]
      · simp [hk]

theorem Publisher.publish_convert_ok (message : xtypes.DynamicData) (system_message : std.map Int) :
    ∀ (members : List (String × xtypes.Kind)) (built : std.map Int),
      (∀ member ∈ members, ∃ value,
        std.map.find message.values_ member.1 = some (std.to_string value) ∧
        system_message.find member.1 = some value ∧
        std.INT_MIN ≤ value ∧ value ≤ std.INT_MAX) →
      ∃ converted, Publisher.convert message members built = .ok converted ∧
        ∀ k, std.map.find converted k =
          if (std.map.find members k).isSome then system_message.find k
          else std.map.find built k := by
  intro members
  induction members with
  | nil =>
    intro built _
    exact ⟨built, rfl, fun k => by simp [std.map.find]⟩
  | cons member rest ih =>
    obtain ⟨name, kind⟩ := member
    intro built hall
    obtain ⟨value, htext, hvalue, hrange⟩ := hall (name, kind) (List.mem_cons_self _ _)
    simp only at htext hvalue
    obtain ⟨converted, hconv, hfind⟩ :=
      ih (built.assign name value) (fun m hm => hall m (List.mem_cons_of_mem _ hm))
    refine ⟨converted, ?_, ?_⟩
    · simp only [Publisher.convert, xtypes.DynamicData.get, std.map.at_, htext,
        std.stoi_to_string value hrange]
      exact hconv
    · intro k
      rw [hfind k]
      simp only [std.map.find_assign, std.map.find]
      by_cases hk : name = k
      · subst hk
        simp [hvalue]
      · simp [hk]

/-- C7: for every dynamic type and every system message whose values are
32-bit integers and which has a value for each member of the type,
`Subscriber::receive` builds the message that holds the decimal text of each
member and calls the callback with it, and `Publisher::publish` accepts that
message, returns true and converts it into the system message that has the
original value for every member of the type and nothing else. -/
theorem publish_inverts_receive (type : TypePtr) (topic_in topic_out : String)
    (callback : SubscriptionCallback) (system_message : std.map Int)
    (hint : ∀ entry ∈ system_message, std.INT_MIN ≤ entry.2 ∧ entry.2 ≤ std.INT_MAX)
    (hhas : ∀ member ∈ type.pointee.get_members,
      (system_message.find member.1).isSome = true) :
    ∃ message published,
      (∀ (host : Host) (history : List Invocation),
        ((Subscriber.mk topic_in type callback).receive host history system_message).calls =
          [⟨callback, message⟩] ∧
        ((Subscriber.mk topic_in type callback).receive host history system_message).result =
          match callback.throws host history message with
          | some e => .error e
          | none => .ok ()) ∧
      message.type_ = type.pointee ∧
      (∀ k, message.get_values.find k =
        if (type.pointee.get_members.find k).isSome
        then (system_message.find k).map std.to_string else none) ∧
      (Publisher.mk topic_out type).publish message = .ok published ∧
      published.result = true ∧
      (∀ k, published.system_message.find k =
        if (type.pointee.get_members.find k).isSome then system_message.find k else none) := by
  obtain ⟨message, hrecv, htype, hvalues⟩ :=
    Subscriber.receive_convert_ok system_message type.pointee.get_members
      (xtypes.DynamicData.mk_of type.pointee) hhas
  have hback : ∀ member ∈ type.pointee.get_members, ∃ value,
      std.map.find message.values_ member.1 = some (std.to_string value) ∧
      system_message.find member.1 = some value ∧
      std.INT_MIN ≤ value ∧ value ≤ std.INT_MAX := by
    intro member hmember
    obtain ⟨value, hvalue⟩ := Option.isSome_iff_exists.mp (hhas member hmember)
    have hkey : (std.map.find type.pointee.get_members member.1).isSome = true :=
      std.map.find_isSome_of_mem member.1 member.2 _ hmember
    refine ⟨value, ?_, hvalue, hint (member.1, value) (std.map.mem_of_find _ _ _ hvalue)⟩
    rw [hvalues member.1]
    simp [hkey, hvalue]
  obtain ⟨converted, hconv, hfind⟩ :=
    Publisher.publish_convert_ok message system_message type.pointee.get_members [] hback
  refine ⟨message, ⟨true, converted, Publisher.print message.get_values⟩, ?_, ?_, ?_, ?_, rfl, ?_⟩
  · intro host history
    simp only [Subscriber.receive, hrecv]
    cases callback.throws host history message <;> exact ⟨rfl, rfl⟩
  · exact htype
  · intro k
    have := hvalues k
    simpa [xtypes.DynamicData.get_values, xtypes.DynamicData.mk_of, std.map.find] using this
  · simp only [Publisher.publish, hconv]
  · intro k
    have := hfind k
    simpa [std.map.find] using this

/-- C7, at a concrete input: the type `Coordinate2D` with the least and the
greatest 32-bit value. -/
theorem publish_inverts_receive_witness :
    ∃ message published,
      (∀ (host : Host) (history : List Invocation),
        ((Subscriber.mk "a" ⟨1, SystemHandle.coord_2d⟩ (.target 7)).receive host history
          [("x", -2147483648), ("y", 2147483647)]).calls = [⟨.target 7, message⟩] ∧
        ((Subscriber.mk "a" ⟨1, SystemHandle.coord_2d⟩ (.target 7)).receive host history
          [("x", -2147483648), ("y", 2147483647)]).result =
          match SubscriptionCallback.throws host history (.target 7) message with
          | some e => .error e
          | none => .ok ()) ∧
      message.type_ = SystemHandle.coord_2d ∧
      (∀ k, message.get_values.find k =
        if (SystemHandle.coord_2d.get_members.find k).isSome
        then (std.map.find [("x", -2147483648), ("y", 2147483647)] k).map std.to_string
        else none) ∧
      (Publisher.mk "b" ⟨1, SystemHandle.coord_2d⟩).publish message = .ok published ∧
      published.result = true ∧
      (∀ k, published.system_message.find k =
        if (SystemHandle.coord_2d.get_members.find k).isSome
        then std.map.find [("x", -2147483648), ("y", 2147483647)] k else none) :=
  publish_inverts_receive ⟨1, SystemHandle.coord_2d⟩ "a" "b" (.target 7)
    [("x", -2147483648), ("y", 2147483647)] (by decide) (by decide)

namespace MiddlewareInterfaceExtension

open LibraryLoader

theorem load_loop_eq (load_one : Platform) (owning_directory : String) :
    ∀ (entries done : List LibraryEntry) (result : Bool),
      load_loop load_one owning_directory entries done result =
        (done ++ entries.map (fun e => (load_entry load_one owning_directory e).1),
         result && entries.all (fun e => (load_entry load_one owning_directory e).2)) := by
  intro entries
  induction entries with
  | nil => intro done result; simp [load_loop]
  | cons entry rest ih =>
    intro done result
    simp only [load_loop, ih, List.map_cons, List.all_cons, List.append_assoc,
      List.singleton_append, Bool.and_assoc]

theorem load_entry_loaded (load_one : Platform) (owning_directory : String)
    (entry : LibraryEntry) :
    (load_entry load_one owning_directory entry).2 =
      (load_one (path_of owning_directory entry)).toBool := by
  simp only [load_entry]
  cases load_one (path_of owning_directory entry) <;> simp [Except.toBool]

theorem load_entry_status (load_one : Platform) (owning_directory : String)
    (entry : LibraryEntry) :
    (load_entry load_one owning_directory entry).1.status =
      if (load_one (path_of owning_directory entry)).toBool then .load_succeeded
      else .load_failed := by
  simp only [load_entry]
  cases load_one (path_of owning_directory entry) <;> simp [Except.toBool]

theorem load_entries (load_one : Platform) (self : Implementation) :
    (load load_one self).2.entries =
      self.entries.map (fun e => (load_entry load_one self.owning_directory e).1) := by
  simp [load, load_loop_eq]

theorem load_result (load_one : Platform) (self : Implementation) :
    (load load_one self).1 =
      self.entries.all (fun e => (load_one (path_of self.owning_directory e)).toBool) := by
  simp [load, load_loop_eq, load_entry_loaded]

end MiddlewareInterfaceExtension

/-- C1: the value `load()` returns is the conjunction of the outcomes of the
load attempts of the entries: it is true exactly when every entry has loaded,
which is when every entry ends in the status load-succeeded; it is true for a
manifest without entries. -/
theorem load_returns_conjunction (load_one : LibraryLoader.Platform)
    (self : MiddlewareInterfaceExtension.Implementation) :
    (MiddlewareInterfaceExtension.load load_one self).1 =
      self.entries.all (fun entry =>
        (load_one (MiddlewareInterfaceExtension.path_of self.owning_directory entry)).toBool) ∧
    ((MiddlewareInterfaceExtension.load load_one self).1 = true ↔
      ∀ entry ∈ (MiddlewareInterfaceExtension.load load_one self).2.entries,
        entry.status = .load_succeeded) ∧
    ((MiddlewareInterfaceExtension.load load_one self).1 = false ↔
      ∃ entry ∈ self.entries,
        (load_one (MiddlewareInterfaceExtension.path_of self.owning_directory entry)).toBool =
          false) ∧
    (MiddlewareInterfaceExtension.load load_one { self with entries := [] }).1 = true ∧
    (MiddlewareInterfaceExtension.load load_one self).2.loaded =
      (if (MiddlewareInterfaceExtension.load load_one self).1 then .fully_succeeded
       else .partially_or_fully_failed) := by
  refine ⟨MiddlewareInterfaceExtension.load_result load_one self, ?_, ?_, rfl, rfl⟩
  · rw [MiddlewareInterfaceExtension.load_result, MiddlewareInterfaceExtension.load_entries]
    simp only [List.all_eq_true, List.mem_map, forall_exists_index, and_imp,
      forall_apply_eq_imp_iff₂, MiddlewareInterfaceExtension.load_entry_status]
    constructor
    · intro h entry hentry
      simp [h entry hentry]
    · intro h entry hentry
      have := h entry hentry
      by_cases hb : (load_one
          (MiddlewareInterfaceExtension.path_of self.owning_directory entry)).toBool = true
      · exact hb
      · simp [hb] at this
  · rw [MiddlewareInterfaceExtension.load_result]
    simp [List.all_eq_false]

/-- C2: `load()` attempts every entry, whatever happened to the entries
before it: the entry at each position ends as its own load attempt leaves it,
load-succeeded when its library loads and load-failed when it does not. With
one missing library between two valid ones `load()` returns false and the two
valid entries end in load-succeeded. -/
theorem load_continues_after_failure (load_one : LibraryLoader.Platform)
    (self : MiddlewareInterfaceExtension.Implementation) (i : Nat) :
    (MiddlewareInterfaceExtension.load load_one self).2.entries[i]? =
      (self.entries[i]?).map (fun entry =>
        (MiddlewareInterfaceExtension.load_entry load_one self.owning_directory entry).1) ∧
    ((MiddlewareInterfaceExtension.load load_one self).2.entries[i]?).map (fun e => e.status) =
      (self.entries[i]?).map (fun entry =>
        if (load_one
          (MiddlewareInterfaceExtension.path_of self.owning_directory entry)).toBool
        then MiddlewareInterfaceExtension.Status.load_succeeded
        else MiddlewareInterfaceExtension.Status.load_failed) ∧
    (MiddlewareInterfaceExtension.load MiddlewareInterfaceExtension.one_missing
        MiddlewareInterfaceExtension.three_entries).1 = false ∧
    (MiddlewareInterfaceExtension.load MiddlewareInterfaceExtension.one_missing
        MiddlewareInterfaceExtension.three_entries).2.entries.map (fun e => e.status) =
      [.load_succeeded, .load_failed, .load_succeeded] ∧
    (MiddlewareInterfaceExtension.load MiddlewareInterfaceExtension.one_missing
        MiddlewareInterfaceExtension.three_entries).2.entries.map (fun e => e.resolved_path) =
      [some "/opt/lib/libfirst.so", some "/opt/lib/libmissing.so",
       some "/opt/lib/libthird.so"] := by
  refine ⟨?_, ?_, by decide, by decide, by decide⟩
  · rw [MiddlewareInterfaceExtension.load_entries, List.getElem?_map]
  · rw [MiddlewareInterfaceExtension.load_entries, List.getElem?_map]
    cases self.entries[i]? with
    | none => rfl
    | some entry => simp [MiddlewareInterfaceExtension.load_entry_status]

namespace MiddlewareInterfaceExtension

theorem declaration_error (decl : YAML.Node) (e : ManifestError)
    (h : declaration decl = .error e) : e = .ManifestSchemaError := by
  unfold declaration at h
  split at h
  · split at h <;> simp_all
  · simp_all

theorem declaration_of_rejected (decl : YAML.Node) (h : rejected decl) :
    declaration decl = .error .ManifestSchemaError := by
  cases decl with
  | Null => rfl
  | Scalar text => rfl
  | Sequence items => rfl
  | Map pairs =>
    cases h1 : lookup "dl" pairs with
    | none =>
      cases h2 : lookup "dll" pairs with
      | none => simp [declaration, h1, h2]
      | some v2 =>
        cases v2 with
        | Scalar text => simp [rejected, has_key, string_value, h1, h2] at h
        | Null => simp [declaration, h1, h2]
        | Sequence items => simp [declaration, h1, h2]
        | Map inner => simp [declaration, h1, h2]
    | some v1 =>
      cases h2 : lookup "dll" pairs with
      | none =>
        cases v1 with
        | Scalar text => simp [rejected, has_key, string_value, h1, h2] at h
        | Null => simp [declaration, h1, h2]
        | Sequence items => simp [declaration, h1, h2]
        | Map inner => simp [declaration, h1, h2]
      | some v2 => cases v1 <;> simp [declaration, h1, h2]

theorem declaration_ok (decl : YAML.Node) (entry : LibraryEntry)
    (h : declaration decl = .ok entry) : stands_for decl entry := by
  cases decl with
  | Null => simp [declaration] at h
  | Scalar text => simp [declaration] at h
  | Sequence items => simp [declaration] at h
  | Map pairs =>
    cases h1 : lookup "dl" pairs with
    | none =>
      cases h2 : lookup "dll" pairs with
      | none => simp [declaration, h1, h2] at h
      | some v2 =>
        cases v2 with
        | Scalar text =>
          simp only [declaration, h1, h2, Except.ok.injEq] at h
          subst h
          simp [stands_for, has_key, string_value, h1, h2]
        | Null => simp [declaration, h1, h2] at h
        | Sequence items => simp [declaration, h1, h2] at h
        | Map inner => simp [declaration, h1, h2] at h
    | some v1 =>
      cases h2 : lookup "dll" pairs with
      | none =>
        cases v1 with
        | Scalar text =>
          simp only [declaration, h1, h2, Except.ok.injEq] at h
          subst h
          simp [stands_for, has_key, string_value, h1, h2]
        | Null => simp [declaration, h1, h2] at h
        | Sequence items => simp [declaration, h1, h2] at h
        | Map inner => simp [declaration, h1, h2] at h
      | some v2 => cases v1 <;> simp [declaration, h1, h2] at h

theorem declaration_of_not_rejected (decl : YAML.Node) (h : ¬ rejected decl) :
    ∃ entry, declaration decl = .ok entry := by
  cases decl with
  | Null => exact absurd (Or.inl ⟨rfl, rfl⟩) h
  | Scalar text => exact absurd (Or.inl ⟨rfl, rfl⟩) h
  | Sequence items => exact absurd (Or.inl ⟨rfl, rfl⟩) h
  | Map pairs =>
    cases h1 : lookup "dl" pairs with
    | none =>
      cases h2 : lookup "dll" pairs with
      | none => simp [rejected, has_key, string_value, h1, h2] at h
      | some v2 =>
        cases v2 with
        | Scalar text =>
          exact ⟨{ platform_key := .windows_dynamic_library, relative_reference := text },
            by simp [declaration, h1, h2]⟩
        | Null => simp [rejected, has_key, string_value, h1, h2] at h
        | Sequence items => simp [rejected, has_key, string_value, h1, h2] at h
        | Map inner => simp [rejected, has_key, string_value, h1, h2] at h
    | some v1 =>
      cases h2 : lookup "dll" pairs with
      | none =>
        cases v1 with
        | Scalar text =>
          exact ⟨{ platform_key := .posix_shared_object, relative_reference := text },
            by simp [declaration, h1, h2]⟩
        | Null => simp [rejected, has_key, string_value, h1, h2] at h
        | Sequence items => simp [rejected, has_key, string_value, h1, h2] at h
        | Map inner => simp [rejected, has_key, string_value, h1, h2] at h
      | some v2 => simp [rejected, has_key, string_value, h1, h2] at h

theorem declarations_error (decls : List YAML.Node) (e : ManifestError) :
    declarations decls = .error e → e = .ManifestSchemaError := by
  induction decls with
  | nil => intro h; simp [declarations] at h
  | cons decl rest ih =>
    intro h
    unfold declarations at h
    cases hd : declaration decl with
    | error e' =>
      simp only [hd, Except.error.injEq] at h
      subst h
      exact declaration_error decl _ hd
    | ok entry =>
      simp only [hd] at h
      cases hr : declarations rest with
      | error e' =>
        simp only [hr, Except.error.injEq] at h
        subst h
        exact ih hr
      | ok entries => simp [hr] at h

theorem declarations_of_rejected (decls : List YAML.Node) :
    (∃ decl ∈ decls, rejected decl) → declarations decls = .error .ManifestSchemaError := by
  induction decls with
  | nil => intro h; simp at h
  | cons decl rest ih =>
    intro h
    unfold declarations
    cases hd : declaration decl with
    | error e => simp only; rw [declaration_error decl e hd]
    | ok entry =>
      simp only
      have hrest : ∃ d ∈ rest, rejected d := by
        obtain ⟨d, hmem, hrej⟩ := h
        rcases List.mem_cons.mp hmem with hEq | hmem
        · subst hEq
          rw [declaration_of_rejected d hrej] at hd
          simp at hd
        · exact ⟨d, hmem, hrej⟩
      rw [ih hrest]

theorem declarations_ok (decls : List YAML.Node) :
    ∀ entries, declarations decls = .ok entries → List.Forall₂ stands_for decls entries := by
  induction decls with
  | nil =>
    intro entries h
    simp only [declarations, Except.ok.injEq] at h
    subst h
    exact List.Forall₂.nil
  | cons decl rest ih =>
    intro entries h
    unfold declarations at h
    cases hd : declaration decl with
    | error e => simp [hd] at h
    | ok entry =>
      simp only [hd] at h
      cases hr : declarations rest with
      | error e => simp [hr] at h
      | ok tail =>
        simp only [hr, Except.ok.injEq] at h
        subst h
        exact List.Forall₂.cons (declaration_ok decl entry hd) (ih tail hr)

theorem declarations_of_none_rejected (decls : List YAML.Node) :
    (∀ decl ∈ decls, ¬ rejected decl) → ∃ entries, declarations decls = .ok entries := by
  induction decls with
  | nil => intro _; exact ⟨[], rfl⟩
  | cons decl rest ih =>
    intro h
    obtain ⟨entry, hd⟩ := declaration_of_not_rejected decl (h decl (List.mem_cons_self _ _))
    obtain ⟨entries, hr⟩ := ih (fun d hmem => h d (List.mem_cons_of_mem _ hmem))
    exact ⟨entry :: entries, by simp [declarations, hd, hr]⟩

end MiddlewareInterfaceExtension

/-- C3: `from_node`, and with it `from_string` and `from_file`, fails with
`ManifestSchemaError` and produces no manifest when a declaration of the tree
has neither `dl` nor `dll`, has both, or has a value that is not a string;
a tree it accepts yields one entry per declaration, in declaration order, and
a tree without such a declaration is accepted. -/
theorem from_node_checks_schema (decls : List YAML.Node)
    (absolute_file_directory_path : String) :
    ((∃ decl ∈ decls, MiddlewareInterfaceExtension.rejected decl) →
      MiddlewareInterfaceExtension.from_node (.Sequence decls) absolute_file_directory_path =
        .error .ManifestSchemaError ∧
      (∀ (yaml_load : String → Option YAML.Node) (mix_text : String),
        yaml_load mix_text = some (.Sequence decls) →
        MiddlewareInterfaceExtension.from_string yaml_load mix_text
          absolute_file_directory_path = .error .ManifestSchemaError) ∧
      (∀ (read_file : String → Option String) (yaml_load : String → Option YAML.Node)
        (filename mix_text : String),
        read_file filename = some mix_text → yaml_load mix_text = some (.Sequence decls) →
        MiddlewareInterfaceExtension.from_file read_file yaml_load filename =
          .error .ManifestSchemaError)) ∧
    (∀ manifest,
      MiddlewareInterfaceExtension.from_node (.Sequence decls) absolute_file_directory_path =
        .ok manifest →
      manifest.owning_directory = absolute_file_directory_path ∧
      manifest.loaded = .not_attempted ∧
      manifest.entries.length = decls.length ∧
      List.Forall₂ MiddlewareInterfaceExtension.stands_for decls manifest.entries) ∧
    ((∀ decl ∈ decls, ¬ MiddlewareInterfaceExtension.rejected decl) →
      ∃ manifest,
        MiddlewareInterfaceExtension.from_node (.Sequence decls) absolute_file_directory_path =
          .ok manifest) := by
  refine ⟨?_, ?_, ?_⟩
  · intro hrej
    have hd := MiddlewareInterfaceExtension.declarations_of_rejected decls hrej
    have hnode : ∀ dir, MiddlewareInterfaceExtension.from_node (.Sequence decls) dir =
        .error .ManifestSchemaError := by
      intro dir
      simp [MiddlewareInterfaceExtension.from_node, hd]
    refine ⟨hnode _, ?_, ?_⟩
    · intro yaml_load mix_text hload
      simp [MiddlewareInterfaceExtension.from_string, hload, hnode]
    · intro read_file yaml_load filename mix_text hread hload
      simp [MiddlewareInterfaceExtension.from_file, MiddlewareInterfaceExtension.from_string,
        hread, hload, hnode]
  · intro manifest h
    unfold MiddlewareInterfaceExtension.from_node at h
    cases hd : MiddlewareInterfaceExtension.declarations decls with
    | error e => simp [hd] at h
    | ok entries =>
      simp only [hd, Except.ok.injEq] at h
      subst h
      have hall := MiddlewareInterfaceExtension.declarations_ok decls entries hd
      exact ⟨rfl, rfl, hall.length_eq.symm, hall⟩
  · intro hnone
    obtain ⟨entries, hd⟩ :=
      MiddlewareInterfaceExtension.declarations_of_none_rejected decls hnone
    exact ⟨{ owning_directory := absolute_file_directory_path, entries := entries },
      by simp [MiddlewareInterfaceExtension.from_node, hd]⟩

/-- C3, at a concrete input: a manifest whose second declaration has both
platform keys. -/
theorem from_node_checks_schema_witness :
    MiddlewareInterfaceExtension.from_node
      (.Sequence [.Map [("dl", .Scalar "../../lib/libfirst.so")],
                  .Map [("dl", .Scalar "../../lib/libsecond.so"),
                        ("dll", .Scalar "../../lib/second.dll")]])
      "/opt/bridge/lib" = .error .ManifestSchemaError :=
  ((from_node_checks_schema
      [.Map [("dl", .Scalar "../../lib/libfirst.so")],
       .Map [("dl", .Scalar "../../lib/libsecond.so"),
             ("dll", .Scalar "../../lib/second.dll")]]
      "/opt/bridge/lib").1
    ⟨.Map [("dl", .Scalar "../../lib/libsecond.so"), ("dll", .Scalar "../../lib/second.dll")],
     by simp, Or.inr (Or.inl ⟨rfl, rfl⟩)⟩).1

namespace PathResolver

theorem split_loop_append (a b : List Char) :
    ∀ current, split_loop (a ++ '/' :: b) current = split_loop a current ++ split_loop b [] := by
  induction a with
  | nil =>
    intro current
    by_cases hc : current = []
    · simp [split_loop, hc]
    · simp [split_loop, hc]
  | cons c rest ih =>
    intro current
    by_cases hsep : c = '/'
    · by_cases hc : current = []
      · simp [split_loop, hsep, hc, ih]
      · simp [split_loop, hsep, hc, ih]
    · simp [split_loop, hsep, ih]

theorem segments_join (owning_directory relative_reference : String) :
    segments (join owning_directory relative_reference).data =
      segments owning_directory.data ++ segments relative_reference.data := by
  have hdata : (join owning_directory relative_reference).data =
      owning_directory.data ++ '/' :: relative_reference.data := by
    simp [join, String.data_append]
  rw [hdata]
  exact split_loop_append _ _ []

theorem is_absolute_join (owning_directory relative_reference : String)
    (h : owning_directory ≠ "") :
    is_absolute (join owning_directory relative_reference) = is_absolute owning_directory := by
  have hdata : (join owning_directory relative_reference).data =
      owning_directory.data ++ '/' :: relative_reference.data := by
    simp [join, String.data_append]
  unfold is_absolute
  rw [hdata]
  cases hd : owning_directory.data with
  | nil =>
    exfalso
    apply h
    cases owning_directory
    simp_all
  | cons c rest => simp

theorem resolve_eq_navigate (owning_directory relative_reference : String)
    (h : owning_directory ≠ "") :
    resolve owning_directory relative_reference =
      String.mk (render (is_absolute owning_directory)
        (navigate owning_directory relative_reference).reverse) := by
  unfold resolve normalize navigate
  rw [is_absolute_join _ _ h, segments_join, List.foldl_append]

theorem ne_empty_of_is_absolute (owning_directory : String)
    (h : is_absolute owning_directory = true) : owning_directory ≠ "" := by
  intro hEq
  subst hEq
  simp [is_absolute] at h

theorem split_loop_free (seg : List Char) (hfree : '/' ∉ seg) :
    ∀ (tail current : List Char),
      split_loop (seg ++ tail) current = split_loop tail (seg.reverse ++ current) := by
  induction seg with
  | nil => intro tail current; rfl
  | cons c rest ih =>
    intro tail current
    have hc : ¬ c = '/' := fun hEq => hfree (by simp [hEq])
    have hrest : '/' ∉ rest := fun hmem => hfree (List.mem_cons_of_mem _ hmem)
    simp [split_loop, hc, ih hrest]

theorem split_loop_good (path : List Char) :
    ∀ current, '/' ∉ current →
      ∀ seg ∈ split_loop path current, seg ≠ [] ∧ '/' ∉ seg := by
  induction path with
  | nil =>
    intro current hfree seg hseg
    by_cases hc : current = []
    · simp [split_loop, hc] at hseg
    · simp only [split_loop, hc, if_false, List.mem_singleton] at hseg
      subst hseg
      exact ⟨by simpa using hc, by simpa using hfree⟩
  | cons c rest ih =>
    intro current hfree seg hseg
    by_cases hsep : c = '/'
    · by_cases hc : current = []
      · simp only [split_loop, hsep, hc, if_true] at hseg
        exact ih [] (by simp) seg hseg
      · simp only [split_loop, hsep, hc, if_true, if_false, List.mem_cons] at hseg
        rcases hseg with hseg | hseg
        · subst hseg
          exact ⟨by simpa using hc, by simpa using hfree⟩
        · exact ih [] (by simp) seg hseg
    · simp only [split_loop, hsep, if_false] at hseg
      refine ih (c :: current) ?_ seg hseg
      intro hmem
      rcases List.mem_cons.mp hmem with hEq | hmem
      · exact hsep hEq.symm
      · exact hfree hmem

theorem segments_good (path : List Char) :
    ∀ seg ∈ segments path, seg ≠ [] ∧ '/' ∉ seg :=
  split_loop_good path [] (by simp)

theorem segments_join_segments (segs : List (List Char)) :
    (∀ seg ∈ segs, seg ≠ [] ∧ '/' ∉ seg) → segments (join_segments segs) = segs := by
  induction segs with
  | nil => intro _; rfl
  | cons seg rest ih =>
    intro hgood
    obtain ⟨hne, hfree⟩ := hgood seg (List.mem_cons_self _ _)
    have hrest : ∀ s ∈ rest, s ≠ [] ∧ '/' ∉ s :=
      fun s hs => hgood s (List.mem_cons_of_mem _ hs)
    cases rest with
    | nil =>
      have := split_loop_free seg hfree [] []
      simp only [List.append_nil] at this
      simp [segments, join_segments, this, split_loop, hne]
    | cons next more =>
      have := split_loop_free seg hfree ('/' :: join_segments (next :: more)) []
      simp only [List.append_nil] at this
      have ih' := ih hrest
      unfold segments at ih'
      simp [segments, join_segments, this, split_loop, hne, ih']

theorem segments_render_absolute (segs : List (List Char))
    (hgood : ∀ seg ∈ segs, seg ≠ [] ∧ '/' ∉ seg) :
    segments (render true segs) = segs := by
  have := segments_join_segments segs hgood
  unfold segments at this ⊢
  simp [render, split_loop, this]

/-- The stacks that the normalisation of an absolute path goes through. -/
theorem step_absolute_clean (stack : List (List Char)) (segment : List Char)
    (hstack : ∀ seg ∈ stack, (seg ≠ [] ∧ '/' ∉ seg) ∧ seg ≠ ['.', '.'] ∧ seg ≠ ['.'])
    (hseg : segment ≠ [] ∧ '/' ∉ segment) :
    ∀ seg ∈ step true stack segment,
      (seg ≠ [] ∧ '/' ∉ seg) ∧ seg ≠ ['.', '.'] ∧ seg ≠ ['.'] := by
  intro seg hmem
  unfold step at hmem
  by_cases h1 : segment = ['.']
  · simp only [h1, if_true] at hmem
    exact hstack seg hmem
  · by_cases h2 : segment = ['.', '.']
    · simp only [h1, h2, if_true, if_false] at hmem
      cases stack with
      | nil => simp at hmem
      | cons top below =>
        have htop := (hstack top (List.mem_cons_self _ _)).2.1
        simp only [htop, if_false] at hmem
        exact hstack seg (List.mem_cons_of_mem _ hmem)
    · simp only [h1, h2, if_false, List.mem_cons] at hmem
      rcases hmem with hEq | hmem
      · subst hEq
        exact ⟨hseg, h2, h1⟩
      · exact hstack seg hmem

theorem foldl_step_absolute_clean (segs : List (List Char)) :
    ∀ stack : List (List Char),
      (∀ seg ∈ stack, (seg ≠ [] ∧ '/' ∉ seg) ∧ seg ≠ ['.', '.'] ∧ seg ≠ ['.']) →
      (∀ seg ∈ segs, seg ≠ [] ∧ '/' ∉ seg) →
      ∀ seg ∈ segs.foldl (step true) stack,
        (seg ≠ [] ∧ '/' ∉ seg) ∧ seg ≠ ['.', '.'] ∧ seg ≠ ['.'] := by
  induction segs with
  | nil => intro stack hstack _; exact hstack
  | cons segment rest ih =>
    intro stack hstack hsegs
    exact ih _ (step_absolute_clean stack segment hstack (hsegs segment (List.mem_cons_self _ _)))
      (fun s hs => hsegs s (List.mem_cons_of_mem _ hs))

theorem foldl_step_of_clean (absolute : Bool) (segs : List (List Char)) :
    (∀ seg ∈ segs, seg ≠ ['.', '.'] ∧ seg ≠ ['.']) →
    ∀ stack, segs.foldl (step absolute) stack = segs.reverse ++ stack := by
  induction segs with
  | nil => intro _ stack; rfl
  | cons segment rest ih =>
    intro hclean stack
    obtain ⟨h2, h1⟩ := hclean segment (List.mem_cons_self _ _)
    rw [List.foldl_cons, ih (fun s hs => hclean s (List.mem_cons_of_mem _ hs))]
    simp [step, h1, h2]

theorem navigate_clean (owning_directory relative_reference : String)
    (h : is_absolute owning_directory = true) :
    ∀ seg ∈ navigate owning_directory relative_reference,
      (seg ≠ [] ∧ '/' ∉ seg) ∧ seg ≠ ['.', '.'] ∧ seg ≠ ['.'] := by
  unfold navigate
  rw [h]
  exact foldl_step_absolute_clean _ _
    (foldl_step_absolute_clean _ [] (by simp) (segments_good _)) (segments_good _)

theorem is_absolute_resolve (owning_directory relative_reference : String)
    (h : is_absolute owning_directory = true) :
    is_absolute (resolve owning_directory relative_reference) = true := by
  rw [resolve_eq_navigate _ _ (ne_empty_of_is_absolute _ h), h]
  simp [render, is_absolute]

theorem segments_resolve (owning_directory relative_reference : String)
    (h : is_absolute owning_directory = true) :
    segments (resolve owning_directory relative_reference).data =
      (navigate owning_directory relative_reference).reverse := by
  have hclean := navigate_clean owning_directory relative_reference h
  rw [resolve_eq_navigate _ _ (ne_empty_of_is_absolute _ h), h]
  exact segments_render_absolute _ (fun seg hseg => (hclean seg (List.mem_reverse.mp hseg)).1)

theorem normalize_resolve (owning_directory relative_reference : String)
    (h : is_absolute owning_directory = true) :
    normalize (resolve owning_directory relative_reference) =
      resolve owning_directory relative_reference := by
  have hclean := navigate_clean owning_directory relative_reference h
  have hfold := foldl_step_of_clean true
    (navigate owning_directory relative_reference).reverse
    (fun seg hseg => (hclean seg (List.mem_reverse.mp hseg)).2) []
  have hsegs := segments_resolve owning_directory relative_reference h
  have habs := is_absolute_resolve owning_directory relative_reference h
  rw [normalize, habs, hsegs, hfold, resolve_eq_navigate _ _ (ne_empty_of_is_absolute _ h), h]
  simp

end PathResolver

/-- C4: the resolved path is the lexical join of the owning directory and
the relative reference, normalised; it is the path reached by navigating from
the directory along the reference, and depends on the two texts only. For an
absolute owning directory it is an absolute path without a `..` segment that
normalisation leaves as it is. The directory `/opt/bridge/lib` with the
reference `../../lib/libcoord.so` resolves to `/opt/lib/libcoord.so`. -/
theorem resolve_is_join_then_normalize (owning_directory relative_reference : String)
    (h : owning_directory ≠ "") :
    PathResolver.resolve owning_directory relative_reference =
      PathResolver.normalize (PathResolver.join owning_directory relative_reference) ∧
    PathResolver.resolve owning_directory relative_reference =
      String.mk (PathResolver.render (PathResolver.is_absolute owning_directory)
        (PathResolver.navigate owning_directory relative_reference).reverse) ∧
    (PathResolver.is_absolute owning_directory = true →
      PathResolver.is_absolute (PathResolver.resolve owning_directory relative_reference) =
        true ∧
      ['.', '.'] ∉
        PathResolver.segments
          (PathResolver.resolve owning_directory relative_reference).data ∧
      PathResolver.normalize (PathResolver.resolve owning_directory relative_reference) =
        PathResolver.resolve owning_directory relative_reference) ∧
    PathResolver.resolve "/opt/bridge/lib" "../../lib/libcoord.so" = "/opt/lib/libcoord.so" := by
  refine ⟨rfl, PathResolver.resolve_eq_navigate _ _ h, ?_, by decide⟩
  intro habs
  refine ⟨PathResolver.is_absolute_resolve _ _ habs, ?_, PathResolver.normalize_resolve _ _ habs⟩
  rw [PathResolver.segments_resolve _ _ habs]
  intro hmem
  exact (PathResolver.navigate_clean _ _ habs _ (List.mem_reverse.mp hmem)).2.1 rfl

/-- C4, at a concrete input: the example of the specification, with a
separator doubled, a trailing separator and a `.` segment added. -/
theorem resolve_is_join_then_normalize_witness :
    PathResolver.resolve "/opt/bridge//lib/" "../.././lib/libcoord.so" =
      "/opt/lib/libcoord.so" ∧
    ['.', '.'] ∉
      PathResolver.segments
        (PathResolver.resolve "/opt/bridge//lib/" "../.././lib/libcoord.so").data :=
  ⟨by decide,
   ((resolve_is_join_then_normalize "/opt/bridge//lib/" "../.././lib/libcoord.so"
      (by decide)).2.2.1 (by decide)).2.1⟩
